import Mathlib

/-!
Shallow embedding of the Titan blob-file subsystem: the `BlobFileBuilder`
state machine from `src/blob_file_builder.cc`, together with the on-disk
record/block/footer byte format and the single-file `BlobFileIterator`
(the latter two are not part of the given sources and are modelled from
the specification).  Bytes are modelled as natural numbers; every value
emitted by the encoders is below 256.  Machine-integer wraparound is made
explicit with `% 2 ^ 32` / `% 2 ^ 64` where the C++ performs unsigned
arithmetic.
-/

namespace Titan

def w32 : Nat := 2 ^ 32

def w64 : Nat := 2 ^ 64

/-- Little-endian fixed-width encoding of `n` into `k` bytes (the shape of
rocksdb `EncodeFixed32` / `EncodeFixed64`; values wrap modulo `256 ^ k`). -/
def encBytesLE : Nat → Nat → List Nat
  | 0, _ => []
  | k + 1, n => n % 256 :: encBytesLE k (n / 256)

/-- Little-endian fixed-width decoding of the first `k` bytes of a list. -/
def decBytesLE : Nat → List Nat → Nat
  | 0, _ => 0
  | _ + 1, [] => 0
  | k + 1, b :: bs => b + 256 * decBytesLE k bs

/-- A blob record: a key/value pair of byte strings. -/
structure BlobRecord where
  key : List Nat
  value : List Nat
  deriving Repr, DecidableEq

/-- `BlobHandle`: byte range (offset, size) of one encoded record. -/
structure BlobHandle where
  offset : Nat
  size : Nat
  deriving Repr, DecidableEq

/-- `BlockHandle`: byte range of a raw (non-record) block.  Zero-valued by
default, matching rocksdb's default-constructed handle. -/
structure BlockHandle where
  offset : Nat := 0
  size : Nat := 0
  deriving Repr, DecidableEq

/-- Modelled from the spec: `BlobRecord::EncodeTo` serializes key and value
with explicit lengths (the format sources are not under `src/`); we use
fixed 8-byte little-endian length fields before each of key and value. -/
def recordEncodeTo (r : BlobRecord) : List Nat :=
  encBytesLE 8 r.key.length ++ r.key ++ encBytesLE 8 r.value.length ++ r.value

/-- Modelled from the spec: inverse of `recordEncodeTo`, used by the
iterator to decode a record body. -/
def decodeRecord (bs : List Nat) : BlobRecord :=
  { key := (bs.drop 8).take (decBytesLE 8 bs),
    value := (((bs.drop 8).drop (decBytesLE 8 bs)).drop 8).take
      (decBytesLE 8 ((bs.drop 8).drop (decBytesLE 8 bs))) }

/-- Modelled from the spec: the external CRC-style checksum primitive is an
out-of-scope collaborator; we use an arbitrary concrete function into
`[0, 2^32)`. -/
def crcValue (bs : List Nat) : Nat :=
  bs.foldl (fun a b => (a * 131 + b + 1) % w32) 0

/-- Modelled from the spec: rocksdb's checksum masking, an external
primitive; an arbitrary concrete function into `[0, 2^32)`. -/
def crcMask (n : Nat) : Nat := (n * 2 + 1) % w32

def kRecordHeaderSize : Nat := 9

def kBlockTrailerSize : Nat := 5

def kNoCompression : Nat := 0

/-- Modelled from the spec: the Record Encoder's per-record header — a
4-byte checksum over the body, a 4-byte body length and a 1-byte
compression type (`kRecordHeaderSize = 9` bytes in total). -/
def recordHeader (body : List Nat) : List Nat :=
  encBytesLE 4 (crcValue body) ++ encBytesLE 4 body.length ++ [kNoCompression]

/-- Output of the Record Encoder: header bytes plus body bytes.  Modelled
from the spec: the external byte-compressor is an out-of-scope
collaborator and is modelled as the identity (lossless) transform, so a
trained dictionary does not change the emitted bytes. -/
structure EncoderOut where
  header : List Nat
  body : List Nat
  deriving Repr, DecidableEq

/-- `BlobEncoder::EncodeSlice`: re-encode an already-serialized record. -/
def encodeSliceOut (s : List Nat) : EncoderOut :=
  { header := recordHeader s, body := s }

/-- `BlobEncoder::EncodeRecord`: serialize then encode a structured record. -/
def encodeRecordOut (r : BlobRecord) : EncoderOut :=
  encodeSliceOut (recordEncodeTo r)

/-- `BlobEncoder::GetEncodedSize`: header length plus body length. -/
def EncoderOut.size (e : EncoderOut) : Nat :=
  e.header.length + e.body.length

/-- The full on-disk byte string of one record: header then body. -/
def encodeFull (r : BlobRecord) : List Nat :=
  recordHeader (recordEncodeTo r) ++ recordEncodeTo r

/-- Builder/file status: ok, or an i/o error tagged with the index of the
append call that failed. -/
inductive Status where
  | ok : Status
  | ioError : Nat → Status
  deriving Repr, DecidableEq

def Status.isOk : Status → Bool
  | .ok => true
  | .ioError _ => false

/-- The append-only file sink (`WritableFileWriter`): accumulated bytes
plus a count of append calls made so far.  `GetFileSize` is the length of
`data`. -/
structure FileState where
  data : List Nat
  nAppends : Nat
  deriving Repr, DecidableEq

def initFile : FileState := { data := [], nAppends := 0 }

/-- `WritableFileWriter::Append` under a fault schedule: the `n`-th append
call fails (leaving the file unchanged) exactly when `failAt n` is true. -/
def fileAppend (failAt : Nat → Bool) (fs : FileState) (bs : List Nat) :
    FileState × Status :=
  if failAt fs.nAppends then
    ({ fs with nAppends := fs.nAppends + 1 }, .ioError fs.nAppends)
  else
    ({ data := fs.data ++ bs, nAppends := fs.nAppends + 1 }, .ok)

/-- The all-appends-succeed fault schedule. -/
def noFail : Nat → Bool := fun _ => false

/-- The configuration the builder reads.  `dictionaryEnabled` models the
`DictionaryEnabled()` predicate, whose definition is not under `src/`
(modelled from the spec: true exactly when a compression dictionary is
configured).  `zstdMaxTrainBytes` and `maxDictBytes` mirror
`blob_file_compression_options`; `comparator` returns the sign of the
key comparison like rocksdb `Comparator::Compare`. -/
structure TitanCFOptions where
  dictionaryEnabled : Bool
  zstdMaxTrainBytes : Nat
  maxDictBytes : Nat
  comparator : List Nat → List Nat → Int

inductive BuilderState where
  | kBuffered : BuilderState
  | kUnbuffered : BuilderState
  deriving Repr, DecidableEq

/-- The `BlobFileBuilder` state, field for field from the C++ class.  The
C `assert` calls are modelled by the latched `assertFailed` flag: it is
set (and never cleared) when an asserted condition is violated. -/
structure BlobFileBuilder where
  builderState : BuilderState
  status : Status
  sampleRecords : List (List Nat)
  sampleStrLen : Nat
  smallestKey : List Nat
  largestKey : List Nat
  numEntries : Nat
  liveDataSize : Nat
  compressionDict : Option (List Nat)
  assertFailed : Bool

def kHasUncompressionDictionary : Nat := 1

/-- Modelled from the spec: `BlobFileHeader::EncodeTo` — a fixed-size
12-byte preamble of magic, version and flags (4 bytes each); the format
sources are not under `src/`. -/
def blobFileHeaderEncode (flags : Nat) : List Nat :=
  encBytesLE 4 53 ++ encBytesLE 4 1 ++ encBytesLE 4 flags

def kBlobHeaderSize : Nat := 12

/-- `BlobFileBuilder::BlobFileBuilder`: set the initial state from
`DictionaryEnabled()`, encode the header (with the dictionary flag when
enabled) and append it, latching the append's status. -/
def mkBlobFileBuilder (cfg : TitanCFOptions) (failAt : Nat → Bool) :
    BlobFileBuilder × FileState :=
  let flags := if cfg.dictionaryEnabled then kHasUncompressionDictionary else 0
  let (fs, st) := fileAppend failAt initFile (blobFileHeaderEncode flags)
  ({ builderState := if cfg.dictionaryEnabled then .kBuffered else .kUnbuffered,
     status := st,
     sampleRecords := [], sampleStrLen := 0,
     smallestKey := [], largestKey := [],
     numEntries := 0, liveDataSize := 0,
     compressionDict := none, assertFailed := false }, fs)

/-- `BlobFileBuilder::WriteEncoderData`: record the handle (offset = file
size before the write, size = encoded size), bump the live-data counter,
append the header, and if that append succeeded append the body and bump
the entry count. -/
def writeEncoderData (failAt : Nat → Bool) (b : BlobFileBuilder)
    (fs : FileState) (enc : EncoderOut) :
    BlobFileBuilder × FileState × BlobHandle :=
  let handle : BlobHandle := { offset := fs.data.length, size := enc.size }
  let b := { b with liveDataSize := b.liveDataSize + handle.size }
  let (fs, st) := fileAppend failAt fs enc.header
  let b := { b with status := st }
  if st.isOk then
    let (fs, st2) := fileAppend failAt fs enc.body
    ({ b with status := st2, numEntries := b.numEntries + 1 }, fs, handle)
  else
    (b, fs, handle)

/-- The loop body of `BlobFileBuilder::FlushSampleRecords`: encode each
buffered sample with `EncodeSlice` and write it.  Faithfully to the
source, no `ok()` check separates the iterations. -/
def flushLoop (failAt : Nat → Bool) :
    List (List Nat) → BlobFileBuilder → FileState → BlobFileBuilder × FileState
  | [], b, fs => (b, fs)
  | s :: rest, b, fs =>
    let (b, fs, _) := writeEncoderData failAt b fs (encodeSliceOut s)
    flushLoop failAt rest b fs

/-- `BlobFileBuilder::FlushSampleRecords`: write every buffered sample in
order, then clear the sample buffer and its byte count. -/
def flushSampleRecords (failAt : Nat → Bool) (b : BlobFileBuilder)
    (fs : FileState) : BlobFileBuilder × FileState :=
  let (b, fs) := flushLoop failAt b.sampleRecords b fs
  ({ b with sampleRecords := [], sampleStrLen := 0 }, fs)

/-- The per-sample contributed length in `EnterUnbuffered`'s corpus loop:
`zstd_max_train_bytes > 0 ? min(zstd_max_train_bytes - record_str.size(),
record_str.size()) : record_str.size()`, with the subtraction performed
in unsigned 64-bit (size_t) arithmetic. -/
def copyLenFor (ztb len : Nat) : Nat :=
  if 0 < ztb then min ((ztb + (w64 - len % w64)) % w64) len else len

/-- Modelled from the spec: `ZSTD_TrainDictionary` is an out-of-scope
external collaborator (an opaque pure function of the concatenated
samples, the sample lengths and the maximum dictionary size); we use an
arbitrary concrete stand-in. -/
def zstdTrainDictionary (samples : List Nat) (sampleLens : List Nat)
    (maxDictBytes : Nat) : List Nat :=
  (samples ++ sampleLens.map (fun n => n % 256)).take maxDictBytes

/-- `BlobFileBuilder::EnterUnbuffered`: build the capped training corpus
from the buffered samples, train the dictionary, install it, switch to
the unbuffered state, and flush the samples. -/
def enterUnbuffered (cfg : TitanCFOptions) (failAt : Nat → Bool)
    (b : BlobFileBuilder) (fs : FileState) : BlobFileBuilder × FileState :=
  let samples :=
    (b.sampleRecords.map
      (fun s => s.take (copyLenFor cfg.zstdMaxTrainBytes s.length))).flatten
  let sampleLens :=
    b.sampleRecords.map (fun s => copyLenFor cfg.zstdMaxTrainBytes s.length)
  let dict := zstdTrainDictionary samples sampleLens cfg.maxDictBytes
  let b := { b with compressionDict := some dict,
                    builderState := .kUnbuffered }
  flushSampleRecords failAt b fs

/-- `BlobFileBuilder::Add`.  Returns the handle written through the
out-parameter: `none` when the call did not reach `WriteEncoderData`
(prior error, or the buffered branch, which leaves the out-parameter
untouched).  Faithfully to the source, the buffered branch returns before
the key-range checks at the bottom of `Add`. -/
def addRecord (cfg : TitanCFOptions) (failAt : Nat → Bool)
    (b : BlobFileBuilder) (fs : FileState) (record : BlobRecord) :
    BlobFileBuilder × FileState × Option BlobHandle :=
  if b.status.isOk then
    match b.builderState with
    | .kBuffered =>
      let recordStr := recordEncodeTo record
      let b := { b with sampleRecords := b.sampleRecords ++ [recordStr],
                        sampleStrLen := b.sampleStrLen + recordStr.length }
      if 0 < cfg.zstdMaxTrainBytes ∧
          cfg.zstdMaxTrainBytes ≤ b.sampleStrLen then
        let (b, fs) := enterUnbuffered cfg failAt b fs
        (b, fs, none)
      else
        (b, fs, none)
    | .kUnbuffered =>
      let (b, fs, handle) :=
        writeEncoderData failAt b fs (encodeRecordOut record)
      let newSmallest :=
        if b.smallestKey.isEmpty then record.key else b.smallestKey
      let newAssertFailed :=
        if cfg.comparator record.key newSmallest < 0 ∨
            cfg.comparator record.key b.largestKey < 0 then true
        else b.assertFailed
      ({ b with smallestKey := newSmallest,
                assertFailed := newAssertFailed,
                largestKey := record.key }, fs, some handle)
  else (b, fs, none)

/-- The 5-byte block trailer of `WriteRawBlock`: the `kNoCompression`
placeholder type byte followed by the masked checksum over the block
bytes and the type byte. -/
def rawBlockTrailer (block : List Nat) : List Nat :=
  kNoCompression ::
    encBytesLE 4 (crcMask (crcValue (block ++ [kNoCompression])))

/-- `BlobFileBuilder::WriteRawBlock`: record the block handle, append the
block, and if that succeeded append the 5-byte trailer (compression-type
placeholder plus masked checksum over block bytes and type byte). -/
def writeRawBlock (failAt : Nat → Bool) (b : BlobFileBuilder)
    (fs : FileState) (block : List Nat) :
    BlobFileBuilder × FileState × BlockHandle :=
  let handle : BlockHandle := { offset := fs.data.length, size := block.length }
  let (fs, st) := fileAppend failAt fs block
  let b := { b with status := st }
  if st.isOk then
    let (fs, st2) := fileAppend failAt fs (rawBlockTrailer block)
    ({ b with status := st2 }, fs, handle)
  else
    (b, fs, handle)

/-- Modelled from the spec: rocksdb's `MetaIndexBuilder` serialization —
an ordered mapping from a well-known name to a block handle, serialized
as one raw block; we encode each entry's handle as two fixed 8-byte
fields. -/
def metaIndexFinish (entries : List BlockHandle) : List Nat :=
  (entries.map (fun h => encBytesLE 8 h.offset ++ encBytesLE 8 h.size)).flatten

/-- `BlobFileBuilder::WriteCompressionDictBlock`: write the raw dictionary
bytes as a checksummed block and, if that succeeded, add its handle to the
meta-index entries. -/
def writeCompressionDictBlock (failAt : Nat → Bool) (b : BlobFileBuilder)
    (fs : FileState) :
    BlobFileBuilder × FileState × BlockHandle × List BlockHandle :=
  let (b, fs, handle) :=
    writeRawBlock failAt b fs (b.compressionDict.getD [])
  if b.status.isOk then (b, fs, handle, [handle])
  else (b, fs, handle, [])

/-- The footer: two block handles, zero-valued when no dictionary was
written. -/
structure BlobFileFooter where
  metaIndexHandle : BlockHandle := {}
  uncompressionDictHandle : BlockHandle := {}
  deriving Repr, DecidableEq

/-- Modelled from the spec: `BlobFileFooter::EncodeTo` — a fixed-size
32-byte block holding the two handles as four fixed 8-byte fields. -/
def footerEncode (f : BlobFileFooter) : List Nat :=
  encBytesLE 8 f.metaIndexHandle.offset ++ encBytesLE 8 f.metaIndexHandle.size ++
  encBytesLE 8 f.uncompressionDictHandle.offset ++
  encBytesLE 8 f.uncompressionDictHandle.size

def kFooterSize : Nat := 32

/-- The part of `BlobFileBuilder::Finish` after the forced transition:
when a dictionary is configured write the dictionary block and the
meta-index block and record their handles in the footer; append the
footer; flush (the sink's flush is modelled as always succeeding) and
return the resulting status.  Faithfully to the source, none of these
writes re-checks the status first. -/
def finishTail (cfg : TitanCFOptions) (failAt : Nat → Bool)
    (b : BlobFileBuilder) (fs : FileState) :
    BlobFileBuilder × FileState × Status :=
  let (b, fs, footer) :=
    if cfg.dictionaryEnabled then
      let (b, fs, dictHandle, metaEntries) :=
        writeCompressionDictBlock failAt b fs
      let (b, fs, metaHandle) :=
        writeRawBlock failAt b fs (metaIndexFinish metaEntries)
      (b, fs,
       { metaIndexHandle := metaHandle,
         uncompressionDictHandle := dictHandle : BlobFileFooter })
    else
      (b, fs, ({} : BlobFileFooter))
  let (fs, st) := fileAppend failAt fs (footerEncode footer)
  let b := { b with status := st }
  (b, fs, b.status)

/-- `BlobFileBuilder::Finish`: return the latched error if any; force the
transition when still buffered; then run the block/footer tail. -/
def finishBuilder (cfg : TitanCFOptions) (failAt : Nat → Bool)
    (b : BlobFileBuilder) (fs : FileState) :
    BlobFileBuilder × FileState × Status :=
  if b.status.isOk then
    match b.builderState with
    | .kBuffered =>
      let (b2, fs2) := enterUnbuffered cfg failAt b fs
      finishTail cfg failAt b2 fs2
    | .kUnbuffered => finishTail cfg failAt b fs
  else (b, fs, b.status)

/-- `BlobFileBuilder::NumEntries`. -/
def builderNumEntries (b : BlobFileBuilder) : Nat := b.numEntries

/-- Run a sequence of `Add` calls, collecting the handle produced (or not)
by each call. -/
def addAll (cfg : TitanCFOptions) (failAt : Nat → Bool) :
    List BlobRecord → BlobFileBuilder → FileState →
    BlobFileBuilder × FileState × List (Option BlobHandle)
  | [], b, fs => (b, fs, [])
  | r :: rest, b, fs =>
    let (b, fs, h) := addRecord cfg failAt b fs r
    let (b2, fs2, hs) := addAll cfg failAt rest b fs
    (b2, fs2, h :: hs)

/-- Iterator status: ok, clean end-of-data, or corruption. -/
inductive IterStatus where
  | ok : IterStatus
  | endOfData : IterStatus
  | corruption : IterStatus
  deriving Repr, DecidableEq

/-- Modelled from the spec: the single-file `BlobFileIterator` (its source
is not under `src/`) — a sequential decoder over the finished file's
bytes.  `dataEnd` is the end of the record region, `cursor` the read
position; the current record's key, value and handle are exposed when
`valid`. -/
structure BlobFileIterator where
  bytes : List Nat
  dataEnd : Nat
  cursor : Nat
  valid : Bool
  iterStatus : IterStatus
  curKey : List Nat
  curValue : List Nat
  curHandle : BlobHandle
  deriving Repr

/-- Modelled from the spec: iterator construction over a finished file —
read the header's dictionary flag; the record region ends where the
dictionary block begins (taken from the footer) when a dictionary is
present, and at the footer otherwise. -/
def mkIterator (bytes : List Nat) : BlobFileIterator :=
  let flags := decBytesLE 4 (bytes.drop 8)
  let footerBytes := bytes.drop (bytes.length - kFooterSize)
  let dictOff := decBytesLE 8 (footerBytes.drop 16)
  let dataEnd := if flags % 2 = 1 then dictOff else bytes.length - kFooterSize
  { bytes := bytes, dataEnd := dataEnd, cursor := kBlobHeaderSize,
    valid := false, iterStatus := .ok,
    curKey := [], curValue := [], curHandle := { offset := 0, size := 0 } }

/-- Modelled from the spec: `SeekToFirst` positions the cursor immediately
before the first record, so the first `Next` decodes record 0. -/
def seekToFirst (it : BlobFileIterator) : BlobFileIterator :=
  { it with cursor := kBlobHeaderSize, valid := false, iterStatus := .ok }

/-- Modelled from the spec: `Next` — clean end-of-data exactly at the
record-region boundary; otherwise decode the 9-byte record header, check
bounds and checksum, decode the body, expose the record and its handle,
and advance the cursor past the record. -/
def iterNext (it : BlobFileIterator) : BlobFileIterator :=
  if it.cursor = it.dataEnd then
    { it with valid := false, iterStatus := .endOfData }
  else if it.dataEnd < it.cursor + kRecordHeaderSize then
    { it with valid := false, iterStatus := .corruption }
  else
    let hdr := it.bytes.drop it.cursor
    let crcStored := decBytesLE 4 hdr
    let bodyLen := decBytesLE 4 (hdr.drop 4)
    if it.dataEnd < it.cursor + kRecordHeaderSize + bodyLen then
      { it with valid := false, iterStatus := .corruption }
    else
      let body := (hdr.drop kRecordHeaderSize).take bodyLen
      if crcValue body ≠ crcStored then
        { it with valid := false, iterStatus := .corruption }
      else
        let r := decodeRecord body
        { it with cursor := it.cursor + kRecordHeaderSize + bodyLen,
                  valid := true, iterStatus := .ok,
                  curKey := r.key, curValue := r.value,
                  curHandle := { offset := it.cursor,
                                 size := kRecordHeaderSize + bodyLen } }

/-- Call `Next` up to `n` times, collecting (key, value, handle) of each
valid position; stops early when the iterator turns invalid. -/
def iterCollect : Nat → BlobFileIterator → List (List Nat × List Nat × BlobHandle)
  | 0, _ => []
  | n + 1, it =>
    let it2 := iterNext it
    if it2.valid then (it2.curKey, it2.curValue, it2.curHandle) :: iterCollect n it2
    else []

/-- Modelled from the spec: the scanning loop of `IterateForPrev` — from a
record start `cur`, advance to the next record start (current start plus
header size plus the header's body length) as long as that next start
does not exceed the target and still lies inside the record region. -/
def scanGo (bytes : List Nat) (dataEnd target : Nat) : Nat → Nat → Nat
  | 0, cur => cur
  | fuel + 1, cur =>
    let recLen := kRecordHeaderSize + decBytesLE 4 ((bytes.drop cur).drop 4)
    if cur + recLen ≤ target ∧ cur + recLen < dataEnd then
      scanGo bytes dataEnd target fuel (cur + recLen)
    else cur

/-- Modelled from the spec: `IterateForPrev(target)` — scan record headers
from the start of the data region and position the cursor at the greatest
record start that is at most the target (at the first record when the
target precedes it), so the next `Next` yields that record. -/
def iterateForPrev (it : BlobFileIterator) (target : Nat) : BlobFileIterator :=
  { it with
      cursor := scanGo it.bytes it.dataEnd target it.dataEnd kBlobHeaderSize,
      valid := false, iterStatus := .ok }

/-- Build one blob file end to end: construct the builder, add all records,
finish.  Returns the final builder, the file, the handles produced by the
`Add` calls and `Finish`'s status. -/
def buildFile (cfg : TitanCFOptions) (failAt : Nat → Bool)
    (rs : List BlobRecord) :
    BlobFileBuilder × FileState × List (Option BlobHandle) × Status :=
  let (b, fs) := mkBlobFileBuilder cfg failAt
  let (b, fs, hs) := addAll cfg failAt rs b fs
  let (b2, fs2, st) := finishBuilder cfg failAt b fs
  (b2, fs2, hs, st)

/-- The handle sequence of records laid out contiguously from `off`. -/
def handlesFor (off : Nat) : List BlobRecord → List BlobHandle
  | [] => []
  | r :: rest =>
    { offset := off, size := (encodeFull r).length } ::
      handlesFor (off + (encodeFull r).length) rest

/-- The bytes appended by a flush of the given sample strings: each sample
as header plus body, concatenated in order. -/
def encSlices (ss : List (List Nat)) : List Nat :=
  (ss.map (fun s => recordHeader s ++ s)).flatten

/-- Total encoded size of the given sample strings. -/
def slicesSizes (ss : List (List Nat)) : Nat :=
  (ss.map (fun s => kRecordHeaderSize + s.length)).sum

/-- Total serialized length of the given records. -/
def recLensSum (rs : List BlobRecord) : Nat :=
  (rs.map (fun r => (recordEncodeTo r).length)).sum

/-- The record region of a file holding exactly the given records. -/
def encRecords (rs : List BlobRecord) : List Nat :=
  (rs.map encodeFull).flatten

/-- The dictionary `EnterUnbuffered` trains from the given sample
strings. -/
def trainedDict (cfg : TitanCFOptions) (ss : List (List Nat)) : List Nat :=
  zstdTrainDictionary
    ((ss.map (fun s => s.take (copyLenFor cfg.zstdMaxTrainBytes s.length))).flatten)
    (ss.map (fun s => copyLenFor cfg.zstdMaxTrainBytes s.length))
    cfg.maxDictBytes

/-- The expected (key, value, handle) stream of an iterator positioned at
`off` over the given records laid out contiguously. -/
def iterExpect (off : Nat) : List BlobRecord → List (List Nat × List Nat × BlobHandle)
  | [] => []
  | r :: rest =>
    (r.key, r.value, { offset := off, size := (encodeFull r).length }) ::
      iterExpect (off + (encodeFull r).length) rest

/-- Start offset of record `i` in a file holding the given records. -/
def startOf (rs : List BlobRecord) (i : Nat) : Nat :=
  kBlobHeaderSize + ((rs.take i).map (fun r => (encodeFull r).length)).sum

/-- The builder state resulting from one successful unbuffered `Add` with
no faults: entry count and live-data size bumped, key tracking updated as
in the source's key-range-check block. -/
def addedBuilder (cfg : TitanCFOptions) (b : BlobFileBuilder)
    (r : BlobRecord) : BlobFileBuilder :=
  { b with status := .ok,
           numEntries := b.numEntries + 1,
           liveDataSize := b.liveDataSize + (encodeFull r).length,
           smallestKey := if b.smallestKey.isEmpty then r.key else b.smallestKey,
           assertFailed :=
             if cfg.comparator r.key
                   (if b.smallestKey.isEmpty then r.key else b.smallestKey) < 0 ∨
                 cfg.comparator r.key b.largestKey < 0 then true
             else b.assertFailed,
           largestKey := r.key }

/-- The handle of a dictionary block of raw bytes `d` written at `base`. -/
def dictHandleAt (base : Nat) (d : List Nat) : BlockHandle :=
  { offset := base, size := d.length }

/-- The meta-index block written for a dictionary block at `base`. -/
def metaBlockAt (base : Nat) (d : List Nat) : List Nat :=
  metaIndexFinish [dictHandleAt base d]

/-- The footer written when the dictionary block sits at `base`. -/
def footerAt (base : Nat) (d : List Nat) : BlobFileFooter :=
  { metaIndexHandle :=
      { offset := base + d.length + kBlockTrailerSize,
        size := (metaBlockAt base d).length },
    uncompressionDictHandle := dictHandleAt base d }

/-- The bytes `finishTail` appends after the records when a dictionary
with raw bytes `d` is configured and the record region ends at `base`:
dictionary block with trailer, meta-index block with trailer, footer
holding the two handles. -/
def dictTail (d : List Nat) (base : Nat) : List Nat :=
  (d ++ rawBlockTrailer d) ++
    (metaBlockAt base d ++ rawBlockTrailer (metaBlockAt base d)) ++
    footerEncode (footerAt base d)

/-- `n`-fold iteration of `iterNext`. -/
def iterAdvance : Nat → BlobFileIterator → BlobFileIterator
  | 0, it => it
  | n + 1, it => iterAdvance n (iterNext it)

/-- Total bytewise (lexicographic) comparison, the shape of rocksdb's
default comparator; used to instantiate the configured comparator in
concrete examples. -/
def lexLt : List Nat → List Nat → Bool
  | [], [] => false
  | [], _ :: _ => true
  | _ :: _, [] => false
  | a :: as, b :: bs =>
    if a < b then true else if b < a then false else lexLt as bs

/-- Comparator returning the sign of the bytewise comparison. -/
def lexCmp (a b : List Nat) : Int :=
  if lexLt a b then -1 else if lexLt b a then 1 else 0

/-- Concrete configuration for the C1 counterexample: dictionary training
enabled with a 5-byte training threshold. -/
def c1Cfg : TitanCFOptions :=
  { dictionaryEnabled := true, zstdMaxTrainBytes := 5, maxDictBytes := 4,
    comparator := lexCmp }

/-- Configuration with no dictionary, bytewise comparator; used by
concrete instantiations. -/
def plainCfg : TitanCFOptions :=
  { dictionaryEnabled := false, zstdMaxTrainBytes := 0, maxDictBytes := 0,
    comparator := lexCmp }

/-- A concrete unbuffered builder mid-life, used by the C10 witness. -/
def w10Builder : BlobFileBuilder :=
  { builderState := .kUnbuffered, status := .ok, sampleRecords := [],
    sampleStrLen := 0, smallestKey := [], largestKey := [],
    numEntries := 2, liveDataSize := 40, compressionDict := none,
    assertFailed := false }

/-- A concrete file state with three bytes written and five appends
made. -/
def w10File : FileState := { data := [0, 1, 2], nAppends := 5 }

/-- Schedule failing exactly the sixth append call (index 5). -/
def env5 : Nat → Bool := fun n => n == 5

/-- Schedule failing exactly the seventh append call (index 6). -/
def env6 : Nat → Bool := fun n => n == 6

/-- Dictionary-enabled configuration with the training threshold unset,
so the builder stays buffered through all `Add` calls; bytewise
comparator. -/
def dictCfg0 : TitanCFOptions :=
  { dictionaryEnabled := true, zstdMaxTrainBytes := 0, maxDictBytes := 4,
    comparator := lexCmp }

/-- Schedule failing exactly append call index 3 (the dictionary block
write in `Finish` for the C2 scenario). -/
def env3 : Nat → Bool := fun n => n == 3

/-- The claim's per-sample cap expression: the remaining budget
`zstd_max_train_bytes − sample_length` in unsigned 64-bit arithmetic,
taken `min` with the sample's own length. -/
def capExpr (ztb len : Nat) : Nat :=
  min ((ztb + (w64 - len % w64)) % w64) len

/-- Modelled from the spec: read the header's flags field of a finished
file (the 4-byte field at offset 8). -/
def readFlags (bytes : List Nat) : Nat := decBytesLE 4 (bytes.drop 8)

/-- Modelled from the spec: decode the fixed-size footer — the final
`kFooterSize` bytes — into its two block handles. -/
def readFooter (bytes : List Nat) : BlobFileFooter :=
  { metaIndexHandle :=
      { offset := decBytesLE 8 (bytes.drop (bytes.length - kFooterSize)),
        size := decBytesLE 8 ((bytes.drop (bytes.length - kFooterSize)).drop 8) },
    uncompressionDictHandle :=
      { offset := decBytesLE 8 ((bytes.drop (bytes.length - kFooterSize)).drop 16),
        size := decBytesLE 8 ((bytes.drop (bytes.length - kFooterSize)).drop 24) } }

theorem length_encBytesLE (k n : Nat) : (encBytesLE k n).length = k := by
  induction k generalizing n with
  | zero => rfl
  | succ k ih => simp [encBytesLE, ih]

theorem decBytesLE_encBytesLE (k n : Nat) (rest : List Nat) :
    decBytesLE k (encBytesLE k n ++ rest) = n % 256 ^ k := by
  induction k generalizing n with
  | zero => simp [encBytesLE, decBytesLE, Nat.mod_one]
  | succ k ih =>
    simp only [encBytesLE, decBytesLE, List.cons_append, List.append_eq, ih]
    rw [pow_succ, mul_comm (256 ^ k) 256, Nat.mod_mul]

theorem dropLenAppend {α : Type} (l1 l2 : List α) (k : Nat) (h : l1.length = k) :
    (l1 ++ l2).drop k = l2 := by
  subst h
  exact List.drop_left _ _

theorem takeLenAppend {α : Type} (l1 l2 : List α) (k : Nat) (h : l1.length = k) :
    (l1 ++ l2).take k = l1 := by
  subst h
  exact List.take_left _ _

theorem crcValue_lt (bs : List Nat) : crcValue bs < w32 := by
  have h : ∀ a, a < w32 → bs.foldl (fun a b => (a * 131 + b + 1) % w32) a < w32 := by
    induction bs with
    | nil => intro a ha; simpa using ha
    | cons b bs ih =>
      intro a _
      exact ih _ (Nat.mod_lt _ (by norm_num [w32]))
  exact h 0 (by norm_num [w32])

theorem length_recordHeader (body : List Nat) :
    (recordHeader body).length = kRecordHeaderSize := by
  simp [recordHeader, length_encBytesLE, kRecordHeaderSize]

theorem length_recordEncodeTo (r : BlobRecord) :
    (recordEncodeTo r).length = 16 + r.key.length + r.value.length := by
  simp [recordEncodeTo, length_encBytesLE]
  omega

theorem length_encodeFull (r : BlobRecord) :
    (encodeFull r).length = kRecordHeaderSize + (recordEncodeTo r).length := by
  simp [encodeFull, length_recordHeader]

theorem decodeRecord_encode (r : BlobRecord)
    (hk : r.key.length < w64) (hv : r.value.length < w64) :
    decodeRecord (recordEncodeTo r) = r := by
  obtain ⟨key, value⟩ := r
  simp only [BlobRecord.mk.injEq] at hk hv ⊢
  unfold decodeRecord recordEncodeTo
  simp only [List.append_assoc]
  have hklen : decBytesLE 8 (encBytesLE 8 key.length ++
      (key ++ (encBytesLE 8 value.length ++ value))) = key.length := by
    rw [decBytesLE_encBytesLE]
    exact Nat.mod_eq_of_lt (by simpa [w64] using hk)
  have hd1 := dropLenAppend (encBytesLE 8 key.length)
    (key ++ (encBytesLE 8 value.length ++ value)) 8 (length_encBytesLE 8 _)
  have ht := takeLenAppend key (encBytesLE 8 value.length ++ value) key.length rfl
  have hd2 := dropLenAppend key (encBytesLE 8 value.length ++ value) key.length rfl
  have hvlen : decBytesLE 8 (encBytesLE 8 value.length ++ value) = value.length := by
    rw [decBytesLE_encBytesLE]
    exact Nat.mod_eq_of_lt (by simpa [w64] using hv)
  have hd3 := dropLenAppend (encBytesLE 8 value.length) value 8 (length_encBytesLE 8 _)
  simp only [hklen, hd1, ht, hd2, hvlen, hd3, List.take_length]

theorem encSlices_map_recordEncodeTo (rs : List BlobRecord) :
    encSlices (rs.map recordEncodeTo) = encRecords rs := by
  induction rs with
  | nil => rfl
  | cons r rest ih =>
    simp only [encSlices, encRecords, List.map_cons, List.map_map,
      List.flatten_cons, encodeFull] at ih ⊢
    rw [ih]

theorem encSlices_append (xs ys : List (List Nat)) :
    encSlices (xs ++ ys) = encSlices xs ++ encSlices ys := by
  simp [encSlices]

theorem writeEncoderData_noFail (b : BlobFileBuilder) (fs : FileState)
    (e : EncoderOut) :
    writeEncoderData noFail b fs e =
      ({ b with status := .ok, numEntries := b.numEntries + 1,
                liveDataSize := b.liveDataSize + e.size },
       { data := fs.data ++ (e.header ++ e.body), nAppends := fs.nAppends + 2 },
       { offset := fs.data.length, size := e.size }) := by
  simp [writeEncoderData, fileAppend, noFail, Status.isOk, List.append_assoc]

theorem flushLoop_noFail (ss : List (List Nat)) (b : BlobFileBuilder)
    (fs : FileState) (hok : b.status = .ok) :
    flushLoop noFail ss b fs =
      ({ b with status := .ok, numEntries := b.numEntries + ss.length,
                liveDataSize := b.liveDataSize + slicesSizes ss },
       { data := fs.data ++ encSlices ss,
         nAppends := fs.nAppends + 2 * ss.length }) := by
  induction ss generalizing b fs with
  | nil =>
    obtain ⟨st, rest⟩ := b
    obtain ⟨d, n⟩ := fs
    simp only at hok
    subst hok
    simp [flushLoop, slicesSizes, encSlices]
  | cons s rest ih =>
    rw [flushLoop, writeEncoderData_noFail]
    dsimp only
    rw [ih _ _ rfl]
    simp only [EncoderOut.size, encodeSliceOut, slicesSizes, encSlices,
      List.map_cons, List.sum_cons, List.flatten_cons, length_recordHeader,
      List.length_cons, List.append_assoc]
    refine congrArg₂ Prod.mk ?_ (congrArg₂ FileState.mk rfl ?_)
    · congr 1 <;> omega
    · omega

theorem encodeRecordOut_size (r : BlobRecord) :
    (encodeRecordOut r).size = (encodeFull r).length := by
  simp [encodeRecordOut, encodeSliceOut, EncoderOut.size, encodeFull]

theorem enterUnbuffered_noFail (cfg : TitanCFOptions) (b : BlobFileBuilder)
    (fs : FileState) (hok : b.status = .ok) :
    enterUnbuffered cfg noFail b fs =
      ({ b with compressionDict := some (trainedDict cfg b.sampleRecords),
                builderState := .kUnbuffered,
                sampleRecords := [], sampleStrLen := 0,
                status := .ok,
                numEntries := b.numEntries + b.sampleRecords.length,
                liveDataSize := b.liveDataSize + slicesSizes b.sampleRecords },
       { data := fs.data ++ encSlices b.sampleRecords,
         nAppends := fs.nAppends + 2 * b.sampleRecords.length }) := by
  unfold enterUnbuffered flushSampleRecords trainedDict
  dsimp only
  rw [flushLoop_noFail _ _ _ (by simpa using hok)]

theorem addRecord_unbuffered_noFail (cfg : TitanCFOptions)
    (b : BlobFileBuilder) (fs : FileState) (r : BlobRecord)
    (hst : b.builderState = .kUnbuffered) (hok : b.status = .ok) :
    addRecord cfg noFail b fs r =
      (addedBuilder cfg b r,
       { data := fs.data ++ encodeFull r, nAppends := fs.nAppends + 2 },
       some { offset := fs.data.length, size := (encodeFull r).length }) := by
  obtain ⟨bst, st, srs, ssl, sk, lk, ne, lds, cd, af⟩ := b
  simp only at hst hok
  subst hst
  subst hok
  unfold addRecord
  simp only [Status.isOk, if_true]
  rw [writeEncoderData_noFail]
  dsimp only [encodeRecordOut, encodeSliceOut, EncoderOut.size, encodeFull,
    length_recordHeader, addedBuilder]
  refine congrArg₂ Prod.mk ?_ (congrArg₂ Prod.mk rfl ?_)
  · simp [length_recordHeader, List.length_append]
  · simp [length_recordHeader, List.length_append]

theorem encRecords_cons (r : BlobRecord) (rest : List BlobRecord) :
    encRecords (r :: rest) = encodeFull r ++ encRecords rest := by
  simp [encRecords]

theorem addAll_unbuffered_noFail (cfg : TitanCFOptions) (rs : List BlobRecord)
    (b : BlobFileBuilder) (fs : FileState)
    (hst : b.builderState = .kUnbuffered) (hok : b.status = .ok) :
    (addAll cfg noFail rs b fs).1.builderState = .kUnbuffered ∧
    (addAll cfg noFail rs b fs).1.status = .ok ∧
    (addAll cfg noFail rs b fs).1.numEntries = b.numEntries + rs.length ∧
    (addAll cfg noFail rs b fs).1.sampleRecords = b.sampleRecords ∧
    (addAll cfg noFail rs b fs).1.sampleStrLen = b.sampleStrLen ∧
    (addAll cfg noFail rs b fs).1.compressionDict = b.compressionDict ∧
    (addAll cfg noFail rs b fs).2.1.data = fs.data ++ encRecords rs ∧
    (addAll cfg noFail rs b fs).2.1.nAppends = fs.nAppends + 2 * rs.length ∧
    (addAll cfg noFail rs b fs).2.2 =
      (handlesFor fs.data.length rs).map some := by
  induction rs generalizing b fs with
  | nil =>
    refine ⟨hst, hok, ?_, rfl, rfl, rfl, ?_, ?_, rfl⟩ <;>
      simp [addAll, encRecords, handlesFor]
  | cons r rest ih =>
    rw [addAll, addRecord_unbuffered_noFail cfg b fs r hst hok]
    dsimp only
    obtain ⟨h1, h2, h3, h4, h5, h6, h7, h8, h9⟩ :=
      ih (addedBuilder cfg b r)
        { data := fs.data ++ encodeFull r, nAppends := fs.nAppends + 2 }
        (by dsimp [addedBuilder]; exact hst) (by dsimp [addedBuilder])
    refine ⟨h1, h2, ?_, ?_, ?_, ?_, ?_, ?_, ?_⟩
    · rw [h3]; simp only [addedBuilder, List.length_cons]; omega
    · rw [h4]; dsimp only [addedBuilder]
    · rw [h5]; dsimp only [addedBuilder]
    · rw [h6]; dsimp only [addedBuilder]
    · rw [h7]; rw [encRecords_cons, List.append_assoc]
    · rw [h8]; simp only [List.length_cons]
      show fs.nAppends + 2 + 2 * rest.length = fs.nAppends + 2 * (rest.length + 1)
      omega
    · rw [h9]; dsimp only [handlesFor, List.map_cons]
      rw [List.length_append]

theorem recLensSum_cons (r : BlobRecord) (rest : List BlobRecord) :
    recLensSum (r :: rest) = (recordEncodeTo r).length + recLensSum rest := by
  simp [recLensSum]

theorem encSlices_singleton (s : List Nat) :
    encSlices [s] = recordHeader s ++ s := by
  simp [encSlices]

theorem addRecord_buffered (cfg : TitanCFOptions) (b : BlobFileBuilder)
    (fs : FileState) (r : BlobRecord)
    (hst : b.builderState = .kBuffered) (hok : b.status = .ok) :
    addRecord cfg noFail b fs r =
      if 0 < cfg.zstdMaxTrainBytes ∧
          cfg.zstdMaxTrainBytes ≤ b.sampleStrLen + (recordEncodeTo r).length then
        ((enterUnbuffered cfg noFail
            { b with sampleRecords := b.sampleRecords ++ [recordEncodeTo r],
                     sampleStrLen := b.sampleStrLen + (recordEncodeTo r).length }
            fs).1,
         (enterUnbuffered cfg noFail
            { b with sampleRecords := b.sampleRecords ++ [recordEncodeTo r],
                     sampleStrLen := b.sampleStrLen + (recordEncodeTo r).length }
            fs).2, none)
      else
        ({ b with sampleRecords := b.sampleRecords ++ [recordEncodeTo r],
                  sampleStrLen := b.sampleStrLen + (recordEncodeTo r).length },
         fs, none) := by
  unfold addRecord
  rw [hok, hst]
  simp only [Status.isOk, if_true]

theorem length_trainedDict_le (cfg : TitanCFOptions) (ss : List (List Nat)) :
    (trainedDict cfg ss).length ≤ cfg.maxDictBytes := by
  simp [trainedDict, zstdTrainDictionary]

/-- Projection form of `enterUnbuffered_noFail`. -/
theorem enterUnbuffered_proj (cfg : TitanCFOptions) (b : BlobFileBuilder)
    (fs : FileState) (hok : b.status = .ok) :
    (enterUnbuffered cfg noFail b fs).1.builderState = .kUnbuffered ∧
    (enterUnbuffered cfg noFail b fs).1.status = .ok ∧
    (enterUnbuffered cfg noFail b fs).1.sampleRecords = [] ∧
    (enterUnbuffered cfg noFail b fs).1.sampleStrLen = 0 ∧
    (enterUnbuffered cfg noFail b fs).1.numEntries =
      b.numEntries + b.sampleRecords.length ∧
    (enterUnbuffered cfg noFail b fs).1.compressionDict =
      some (trainedDict cfg b.sampleRecords) ∧
    (enterUnbuffered cfg noFail b fs).2.data =
      fs.data ++ encSlices b.sampleRecords := by
  rw [enterUnbuffered_noFail cfg b fs hok]
  exact ⟨rfl, rfl, rfl, rfl, rfl, rfl, rfl⟩

theorem addAll_buffered_noFail (cfg : TitanCFOptions) (rs : List BlobRecord)
    (b : BlobFileBuilder) (fs : FileState)
    (hst : b.builderState = .kBuffered) (hok : b.status = .ok)
    (hth : ¬(0 < cfg.zstdMaxTrainBytes ∧
      cfg.zstdMaxTrainBytes ≤ b.sampleStrLen)) :
    if 0 < cfg.zstdMaxTrainBytes ∧
        cfg.zstdMaxTrainBytes ≤ b.sampleStrLen + recLensSum rs then
      (addAll cfg noFail rs b fs).1.builderState = .kUnbuffered ∧
      (addAll cfg noFail rs b fs).1.status = .ok ∧
      (addAll cfg noFail rs b fs).1.sampleRecords = [] ∧
      (addAll cfg noFail rs b fs).1.sampleStrLen = 0 ∧
      (addAll cfg noFail rs b fs).1.numEntries =
        b.numEntries + b.sampleRecords.length + rs.length ∧
      (∃ d, (addAll cfg noFail rs b fs).1.compressionDict = some d ∧
        d.length ≤ cfg.maxDictBytes) ∧
      (addAll cfg noFail rs b fs).2.1.data =
        fs.data ++ encSlices b.sampleRecords ++ encRecords rs
    else
      (addAll cfg noFail rs b fs).1.builderState = .kBuffered ∧
      (addAll cfg noFail rs b fs).1.status = .ok ∧
      (addAll cfg noFail rs b fs).1.sampleRecords =
        b.sampleRecords ++ rs.map recordEncodeTo ∧
      (addAll cfg noFail rs b fs).1.sampleStrLen =
        b.sampleStrLen + recLensSum rs ∧
      (addAll cfg noFail rs b fs).1.numEntries = b.numEntries ∧
      (addAll cfg noFail rs b fs).1.compressionDict = b.compressionDict ∧
      (addAll cfg noFail rs b fs).2.1 = fs := by
  induction rs generalizing b fs with
  | nil =>
    rw [if_neg (by simpa [recLensSum] using hth)]
    exact ⟨hst, hok, by simp [addAll], by simp [addAll, recLensSum],
      rfl, rfl, rfl⟩
  | cons r rest ih =>
    rw [addAll, addRecord_buffered cfg b fs r hst hok]
    by_cases hc1 : 0 < cfg.zstdMaxTrainBytes ∧
        cfg.zstdMaxTrainBytes ≤ b.sampleStrLen + (recordEncodeTo r).length
    · rw [if_pos hc1]
      dsimp only
      obtain ⟨e1, e2, e3, e4, e5, e6, e7⟩ :=
        enterUnbuffered_proj cfg
          { b with sampleRecords := b.sampleRecords ++ [recordEncodeTo r],
                   sampleStrLen := b.sampleStrLen + (recordEncodeTo r).length }
          fs hok
      obtain ⟨g1, g2, g3, g4, g5, g6, g7, g8, g9⟩ :=
        addAll_unbuffered_noFail cfg rest _ _ e1 e2
      rw [if_pos ⟨hc1.1, by rw [recLensSum_cons]; omega⟩]
      refine ⟨g1, g2, ?_, ?_, ?_, ?_, ?_⟩
      · rw [g4, e3]
      · rw [g5, e4]
      · rw [g3, e5]
        simp only [List.length_append, List.length_cons, List.length_nil]
        omega
      · exact ⟨_, by rw [g6, e6], length_trainedDict_le cfg _⟩
      · rw [g7, e7]
        simp only [encSlices_append, encSlices_singleton, encRecords_cons]
        have hr : recordHeader (recordEncodeTo r) ++ recordEncodeTo r =
            encodeFull r := rfl
        rw [hr]
        simp [List.append_assoc]
    · rw [if_neg hc1]
      dsimp only
      have hthis := ih { b with
          sampleRecords := b.sampleRecords ++ [recordEncodeTo r],
          sampleStrLen := b.sampleStrLen + (recordEncodeTo r).length }
        fs hst hok hc1
      dsimp only at hthis
      rw [recLensSum_cons, ← Nat.add_assoc]
      by_cases hc2 : 0 < cfg.zstdMaxTrainBytes ∧ cfg.zstdMaxTrainBytes ≤
          b.sampleStrLen + (recordEncodeTo r).length + recLensSum rest
      · rw [if_pos hc2]
        rw [if_pos hc2] at hthis
        obtain ⟨g1, g2, g3, g4, g5, g6, g7⟩ := hthis
        refine ⟨g1, g2, g3, g4, ?_, g6, ?_⟩
        · rw [g5]
          simp only [List.length_append, List.length_cons, List.length_nil]
          omega
        · rw [g7]
          simp only [encSlices_append, encSlices_singleton, encRecords_cons]
          have hr : recordHeader (recordEncodeTo r) ++ recordEncodeTo r =
              encodeFull r := rfl
          rw [hr]
          simp [List.append_assoc]
      · rw [if_neg hc2]
        rw [if_neg hc2] at hthis
        obtain ⟨g1, g2, g3, g4, g5, g6, g7⟩ := hthis
        refine ⟨g1, g2, ?_, ?_, g5, g6, g7⟩
        · rw [g3]
          simp [List.append_assoc]
        · rw [g4]

theorem length_rawBlockTrailer (block : List Nat) :
    (rawBlockTrailer block).length = kBlockTrailerSize := by
  simp [rawBlockTrailer, length_encBytesLE, kBlockTrailerSize]

theorem writeRawBlock_noFail (b : BlobFileBuilder) (fs : FileState)
    (block : List Nat) :
    writeRawBlock noFail b fs block =
      ({ b with status := .ok },
       { data := fs.data ++ (block ++ rawBlockTrailer block),
         nAppends := fs.nAppends + 2 },
       { offset := fs.data.length, size := block.length }) := by
  simp [writeRawBlock, fileAppend, noFail, Status.isOk, List.append_assoc]

theorem finishTail_nodict_noFail (cfg : TitanCFOptions) (b : BlobFileBuilder)
    (fs : FileState) (hdict : cfg.dictionaryEnabled = false) :
    finishTail cfg noFail b fs =
      ({ b with status := .ok },
       { data := fs.data ++ footerEncode {}, nAppends := fs.nAppends + 1 },
       .ok) := by
  unfold finishTail
  rw [hdict]
  simp [fileAppend, noFail]

theorem finishTail_dict_noFail (cfg : TitanCFOptions) (b : BlobFileBuilder)
    (fs : FileState) (hdict : cfg.dictionaryEnabled = true) :
    finishTail cfg noFail b fs =
      ({ b with status := .ok },
       { data := fs.data ++ dictTail (b.compressionDict.getD []) fs.data.length,
         nAppends := fs.nAppends + 5 },
       .ok) := by
  obtain ⟨bst, st, srs, ssl, sk, lk, ne, lds, cd, af⟩ := b
  simp only [finishTail, writeCompressionDictBlock, writeRawBlock, fileAppend,
    noFail, Status.isOk, Bool.false_eq_true, if_false, eq_self_iff_true,
    if_true, hdict, dictTail, dictHandleAt, metaBlockAt, footerAt,
    List.append_assoc, length_rawBlockTrailer, List.length_append]
  simp only [← Nat.add_assoc]

theorem finishBuilder_unbuffered (cfg : TitanCFOptions) (failAt : Nat → Bool)
    (b : BlobFileBuilder) (fs : FileState)
    (hst : b.builderState = .kUnbuffered) (hok : b.status = .ok) :
    finishBuilder cfg failAt b fs = finishTail cfg failAt b fs := by
  unfold finishBuilder
  rw [hok, hst]
  simp [Status.isOk]

theorem finishBuilder_buffered (cfg : TitanCFOptions) (failAt : Nat → Bool)
    (b : BlobFileBuilder) (fs : FileState)
    (hst : b.builderState = .kBuffered) (hok : b.status = .ok) :
    finishBuilder cfg failAt b fs =
      finishTail cfg failAt (enterUnbuffered cfg failAt b fs).1
        (enterUnbuffered cfg failAt b fs).2 := by
  unfold finishBuilder
  rw [hok, hst]
  simp [Status.isOk]

theorem length_blobFileHeaderEncode (flags : Nat) :
    (blobFileHeaderEncode flags).length = kBlobHeaderSize := by
  simp [blobFileHeaderEncode, length_encBytesLE, kBlobHeaderSize]

theorem encSlices_nil : encSlices [] = [] := rfl

theorem mkBlobFileBuilder_noFail (cfg : TitanCFOptions) :
    mkBlobFileBuilder cfg noFail =
      ({ builderState :=
           if cfg.dictionaryEnabled then .kBuffered else .kUnbuffered,
         status := .ok,
         sampleRecords := [], sampleStrLen := 0,
         smallestKey := [], largestKey := [],
         numEntries := 0, liveDataSize := 0,
         compressionDict := none, assertFailed := false },
       { data := blobFileHeaderEncode
           (if cfg.dictionaryEnabled then kHasUncompressionDictionary else 0),
         nAppends := 1 }) := by
  simp [mkBlobFileBuilder, fileAppend, noFail, initFile]

/-- Master layout of a file produced by `buildFile` under no faults:
finish succeeds, the builder ends unbuffered with an empty sample buffer
and one counted entry per record, and the file is header, records in
order, then (with a dictionary) the dictionary/meta blocks and footer or
(without) the zero footer; without a dictionary the `Add` calls returned
exactly the contiguous record handles. -/
theorem buildFile_layout (cfg : TitanCFOptions) (rs : List BlobRecord) :
    (buildFile cfg noFail rs).2.2.2 = .ok ∧
    (buildFile cfg noFail rs).1.builderState = .kUnbuffered ∧
    (buildFile cfg noFail rs).1.numEntries = rs.length ∧
    (buildFile cfg noFail rs).1.sampleRecords = [] ∧
    (buildFile cfg noFail rs).1.sampleStrLen = 0 ∧
    (if cfg.dictionaryEnabled then
      ∃ d, (buildFile cfg noFail rs).1.compressionDict = some d ∧
        d.length ≤ cfg.maxDictBytes ∧
        (buildFile cfg noFail rs).2.1.data =
          blobFileHeaderEncode kHasUncompressionDictionary ++ encRecords rs ++
            dictTail d (kBlobHeaderSize + (encRecords rs).length)
    else
      ((buildFile cfg noFail rs).2.1.data =
        blobFileHeaderEncode 0 ++ encRecords rs ++ footerEncode {} ∧
      (buildFile cfg noFail rs).2.2.1 =
        (handlesFor kBlobHeaderSize rs).map some)) := by
  unfold buildFile
  rw [mkBlobFileBuilder_noFail cfg]
  cases hdict : cfg.dictionaryEnabled with
  | false =>
    simp only [hdict, Bool.false_eq_true, if_false]
    obtain ⟨g1, g2, g3, g4, g5, g6, g7, g8, g9⟩ :=
      addAll_unbuffered_noFail cfg rs
        { builderState := .kUnbuffered, status := .ok,
          sampleRecords := [], sampleStrLen := 0,
          smallestKey := [], largestKey := [],
          numEntries := 0, liveDataSize := 0,
          compressionDict := none, assertFailed := false }
        { data := blobFileHeaderEncode 0, nAppends := 1 } rfl rfl
    rw [finishBuilder_unbuffered cfg noFail _ _ g1 g2,
      finishTail_nodict_noFail cfg _ _ hdict]
    dsimp only
    refine ⟨rfl, g1, by simpa using g3, g4, by simpa using g5, ?_, ?_⟩
    · rw [g7, List.append_assoc]
    · rw [g9, length_blobFileHeaderEncode]
  | true =>
    simp only [hdict, if_true]
    have hth : ¬(0 < cfg.zstdMaxTrainBytes ∧ cfg.zstdMaxTrainBytes ≤
        ({ builderState := .kBuffered, status := .ok,
           sampleRecords := [], sampleStrLen := 0,
           smallestKey := [], largestKey := [],
           numEntries := 0, liveDataSize := 0,
           compressionDict := none, assertFailed := false :
           BlobFileBuilder }).sampleStrLen) := by
      rintro ⟨h1, h2⟩
      simp only at h2
      omega
    have H := addAll_buffered_noFail cfg rs
      { builderState := .kBuffered, status := .ok,
        sampleRecords := [], sampleStrLen := 0,
        smallestKey := [], largestKey := [],
        numEntries := 0, liveDataSize := 0,
        compressionDict := none, assertFailed := false }
      { data := blobFileHeaderEncode kHasUncompressionDictionary,
        nAppends := 1 } rfl rfl hth
    dsimp only at H
    by_cases hcross : 0 < cfg.zstdMaxTrainBytes ∧
        cfg.zstdMaxTrainBytes ≤ 0 + recLensSum rs
    · rw [if_pos hcross] at H
      obtain ⟨H1, H2, H3, H4, H5, ⟨d, Hd, Hdlen⟩, H7⟩ := H
      rw [finishBuilder_unbuffered cfg noFail _ _ H1 H2,
        finishTail_dict_noFail cfg _ _ hdict]
      dsimp only
      refine ⟨rfl, H1, by simpa using H5, H3, by simpa using H4, ?_⟩
      refine ⟨d, Hd, Hdlen, ?_⟩
      rw [Hd]
      simp only [Option.getD_some]
      rw [H7]
      simp only [encSlices_nil, List.append_nil]
      rw [List.length_append, length_blobFileHeaderEncode]
    · rw [if_neg hcross] at H
      obtain ⟨H1, H2, H3, H4, H5, H6, H7⟩ := H
      rw [finishBuilder_buffered cfg noFail _ _ H1 H2]
      obtain ⟨e1, e2, e3, e4, e5, e6, e7⟩ :=
        enterUnbuffered_proj cfg _ _ H2
      rw [finishTail_dict_noFail cfg _ _ hdict]
      dsimp only
      refine ⟨rfl, e1, ?_, e3, by simpa using e4, ?_⟩
      · rw [e5, H5, H3]
        simp
      · refine ⟨trainedDict cfg ((addAll cfg noFail rs
          { builderState := .kBuffered, status := .ok,
            sampleRecords := [], sampleStrLen := 0,
            smallestKey := [], largestKey := [],
            numEntries := 0, liveDataSize := 0,
            compressionDict := none, assertFailed := false }
          { data := blobFileHeaderEncode kHasUncompressionDictionary,
            nAppends := 1 }).1.sampleRecords), e6,
          length_trainedDict_le cfg _, ?_⟩
        rw [e6]
        simp only [Option.getD_some]
        rw [e7, H7, H3]
        dsimp only
        simp only [List.nil_append, encSlices_map_recordEncodeTo]
        rw [List.length_append, length_blobFileHeaderEncode]

theorem length_footerEncode (f : BlobFileFooter) :
    (footerEncode f).length = kFooterSize := by
  simp [footerEncode, length_encBytesLE, kFooterSize]

theorem crcValue_mod (bs : List Nat) : crcValue bs % 256 ^ 4 = crcValue bs :=
  Nat.mod_eq_of_lt (by simpa [w32] using crcValue_lt bs)

theorem parse_crc (r : BlobRecord) (tail : List Nat) :
    decBytesLE 4 (encodeFull r ++ tail) = crcValue (recordEncodeTo r) := by
  have e1 : encodeFull r ++ tail =
      encBytesLE 4 (crcValue (recordEncodeTo r)) ++
        (encBytesLE 4 (recordEncodeTo r).length ++
          ([kNoCompression] ++ (recordEncodeTo r ++ tail))) := by
    simp [encodeFull, recordHeader, List.append_assoc]
  rw [e1, decBytesLE_encBytesLE, crcValue_mod]

theorem parse_bodyLen (r : BlobRecord) (tail : List Nat)
    (hlen : (recordEncodeTo r).length < w32) :
    decBytesLE 4 ((encodeFull r ++ tail).drop 4) =
      (recordEncodeTo r).length := by
  have e1 : encodeFull r ++ tail =
      encBytesLE 4 (crcValue (recordEncodeTo r)) ++
        (encBytesLE 4 (recordEncodeTo r).length ++
          ([kNoCompression] ++ (recordEncodeTo r ++ tail))) := by
    simp [encodeFull, recordHeader, List.append_assoc]
  rw [e1, dropLenAppend _ _ 4 (length_encBytesLE 4 _), decBytesLE_encBytesLE]
  exact Nat.mod_eq_of_lt (by simpa [w32] using hlen)

theorem parse_body (r : BlobRecord) (tail : List Nat) :
    ((encodeFull r ++ tail).drop kRecordHeaderSize).take
        (recordEncodeTo r).length = recordEncodeTo r := by
  have e1 : (encodeFull r ++ tail).drop kRecordHeaderSize =
      recordEncodeTo r ++ tail := by
    rw [encodeFull, List.append_assoc]
    exact dropLenAppend _ _ _ (length_recordHeader _)
  rw [e1]
  exact takeLenAppend _ _ _ rfl

theorem iterNext_record (it : BlobFileIterator) (r : BlobRecord)
    (tail : List Nat)
    (hdrop : it.bytes.drop it.cursor = encodeFull r ++ tail)
    (hEnd : it.cursor + (encodeFull r).length ≤ it.dataEnd)
    (hlen : (recordEncodeTo r).length < w32) :
    iterNext it =
      { it with cursor := it.cursor + (encodeFull r).length,
                valid := true, iterStatus := .ok,
                curKey := r.key, curValue := r.value,
                curHandle := { offset := it.cursor,
                               size := (encodeFull r).length } } := by
  have hL : (encodeFull r).length =
      kRecordHeaderSize + (recordEncodeTo r).length := length_encodeFull r
  have hkv : r.key.length < w64 ∧ r.value.length < w64 := by
    have := length_recordEncodeTo r
    constructor <;> (simp only [w64, w32] at hlen ⊢; omega)
  unfold iterNext
  rw [hdrop]
  rw [if_neg (by simp only [kRecordHeaderSize] at hL; omega)]
  rw [if_neg (by simp only [kRecordHeaderSize] at hL ⊢; omega)]
  dsimp only
  rw [parse_crc, parse_bodyLen r tail hlen]
  rw [if_neg (by simp only [kRecordHeaderSize] at hL ⊢; omega)]
  rw [parse_body]
  rw [if_neg (by simp)]
  rw [decodeRecord_encode r hkv.1 hkv.2]
  rw [hL]
  simp only [Nat.add_assoc]

theorem iterRun (rs : List BlobRecord) (it : BlobFileIterator)
    (tail : List Nat)
    (hdrop : it.bytes.drop it.cursor = encRecords rs ++ tail)
    (hEnd : it.dataEnd = it.cursor + (encRecords rs).length)
    (hlen : ∀ r ∈ rs, (recordEncodeTo r).length < w32) :
    iterCollect (rs.length + 1) it = iterExpect it.cursor rs ∧
    (iterNext (iterAdvance rs.length it)).valid = false ∧
    (iterNext (iterAdvance rs.length it)).iterStatus = .endOfData := by
  induction rs generalizing it with
  | nil =>
    have hcur : it.cursor = it.dataEnd := by
      simp [encRecords] at hEnd
      omega
    have hnext : iterNext it =
        { it with valid := false, iterStatus := .endOfData } := by
      unfold iterNext
      rw [if_pos hcur]
    refine ⟨?_, ?_, ?_⟩
    · show iterCollect 1 it = []
      unfold iterCollect
      rw [hnext]
      rfl
    · show (iterNext (iterAdvance 0 it)).valid = false
      unfold iterAdvance
      rw [hnext]
    · show (iterNext (iterAdvance 0 it)).iterStatus = .endOfData
      unfold iterAdvance
      rw [hnext]
  | cons r rest ih =>
    have hdrop2 : it.bytes.drop it.cursor =
        encodeFull r ++ (encRecords rest ++ tail) := by
      rw [hdrop, encRecords_cons, List.append_assoc]
    have hLpos : it.cursor + (encodeFull r).length ≤ it.dataEnd := by
      rw [hEnd, encRecords_cons, List.length_append]
      omega
    have hstep := iterNext_record it r (encRecords rest ++ tail) hdrop2
      hLpos (hlen r (by simp))
    have ihap := ih
      ({ it with
          cursor := it.cursor + (encodeFull r).length,
          valid := true,
          iterStatus := .ok,
          curKey := r.key,
          curValue := r.value,
          curHandle := { offset := it.cursor, size := (encodeFull r).length } })
      (by dsimp only; rw [← List.drop_drop, hdrop, encRecords_cons,
            List.append_assoc]; exact dropLenAppend _ _ _ rfl)
      (by dsimp only; rw [hEnd, encRecords_cons, List.length_append]; omega)
      (fun rr hrr => hlen rr (by simp [hrr]))
    obtain ⟨ih1, ih2, ih3⟩ := ihap
    refine ⟨?_, ?_, ?_⟩
    · show iterCollect (rest.length + 1 + 1) it = iterExpect it.cursor (r :: rest)
      rw [iterCollect, hstep]
      dsimp only
      rw [if_pos rfl]
      rw [ih1]
      rfl
    · show (iterNext (iterAdvance (rest.length + 1) it)).valid = false
      rw [iterAdvance, hstep]
      exact ih2
    · show (iterNext (iterAdvance (rest.length + 1) it)).iterStatus = .endOfData
      rw [iterAdvance, hstep]
      exact ih3

theorem footerEncode_split (f : BlobFileFooter) :
    footerEncode f =
      (encBytesLE 8 f.metaIndexHandle.offset ++
        encBytesLE 8 f.metaIndexHandle.size) ++
      (encBytesLE 8 f.uncompressionDictHandle.offset ++
        encBytesLE 8 f.uncompressionDictHandle.size) := by
  simp [footerEncode, List.append_assoc]

/-- The iterator built over a `buildFile` output file: its record region
ends exactly after the last record, and dropping the file header from its
bytes exposes the record region (followed by the trailing blocks). -/
theorem mkIterator_built (cfg : TitanCFOptions) (rs : List BlobRecord)
    (hbound : kBlobHeaderSize + (encRecords rs).length < w64) :
    (mkIterator (buildFile cfg noFail rs).2.1.data).dataEnd =
      kBlobHeaderSize + (encRecords rs).length ∧
    ∃ post, (mkIterator (buildFile cfg noFail rs).2.1.data).bytes.drop
      kBlobHeaderSize = encRecords rs ++ post := by
  obtain ⟨l1, l2, l3, l4, l4s, l5⟩ := buildFile_layout cfg rs
  cases hdict : cfg.dictionaryEnabled with
  | true =>
    rw [hdict] at l5
    simp only [if_true] at l5
    obtain ⟨d, hd, hdlen, hdata⟩ := l5
    constructor
    · show (if decBytesLE 4 ((buildFile cfg noFail rs).2.1.data.drop 8) % 2 = 1
          then decBytesLE 8
            (((buildFile cfg noFail rs).2.1.data.drop
              ((buildFile cfg noFail rs).2.1.data.length - kFooterSize)).drop 16)
          else (buildFile cfg noFail rs).2.1.data.length - kFooterSize) =
          kBlobHeaderSize + (encRecords rs).length
      have hflags : decBytesLE 4 ((buildFile cfg noFail rs).2.1.data.drop 8) = 1 := by
        rw [hdata]
        have e : blobFileHeaderEncode kHasUncompressionDictionary ++
            encRecords rs ++
            dictTail d (kBlobHeaderSize + (encRecords rs).length) =
            (encBytesLE 4 53 ++ encBytesLE 4 1) ++
              (encBytesLE 4 kHasUncompressionDictionary ++
                (encRecords rs ++
                  dictTail d (kBlobHeaderSize + (encRecords rs).length))) := by
          simp [blobFileHeaderEncode, List.append_assoc]
        rw [e, dropLenAppend _ _ 8 (by simp [length_encBytesLE]),
          decBytesLE_encBytesLE]
        norm_num [kHasUncompressionDictionary]
      rw [hflags]
      rw [if_pos rfl]
      have hsplit : (buildFile cfg noFail rs).2.1.data =
          (blobFileHeaderEncode kHasUncompressionDictionary ++ encRecords rs ++
            (d ++ rawBlockTrailer d) ++
            (metaBlockAt (kBlobHeaderSize + (encRecords rs).length) d ++
              rawBlockTrailer
                (metaBlockAt (kBlobHeaderSize + (encRecords rs).length) d))) ++
          footerEncode (footerAt (kBlobHeaderSize + (encRecords rs).length) d) := by
        rw [hdata, dictTail]
        simp [List.append_assoc]
      rw [hsplit]
      rw [List.length_append, length_footerEncode]
      rw [Nat.add_sub_cancel]
      rw [dropLenAppend _ _ _ rfl]
      rw [footerEncode_split]
      rw [dropLenAppend _ _ 16 (by simp [length_encBytesLE])]
      dsimp only [footerAt, dictHandleAt]
      rw [decBytesLE_encBytesLE]
      exact Nat.mod_eq_of_lt (by simpa [w64] using hbound)
    · refine ⟨dictTail d (kBlobHeaderSize + (encRecords rs).length), ?_⟩
      show (buildFile cfg noFail rs).2.1.data.drop kBlobHeaderSize =
        encRecords rs ++ dictTail d (kBlobHeaderSize + (encRecords rs).length)
      rw [hdata, List.append_assoc]
      exact dropLenAppend _ _ _ (length_blobFileHeaderEncode _)
  | false =>
    rw [hdict] at l5
    simp only [Bool.false_eq_true, if_false] at l5
    obtain ⟨hdata, hhandles⟩ := l5
    constructor
    · show (if decBytesLE 4 ((buildFile cfg noFail rs).2.1.data.drop 8) % 2 = 1
          then decBytesLE 8
            (((buildFile cfg noFail rs).2.1.data.drop
              ((buildFile cfg noFail rs).2.1.data.length - kFooterSize)).drop 16)
          else (buildFile cfg noFail rs).2.1.data.length - kFooterSize) =
          kBlobHeaderSize + (encRecords rs).length
      have hflags : decBytesLE 4 ((buildFile cfg noFail rs).2.1.data.drop 8) = 0 := by
        rw [hdata]
        have e : blobFileHeaderEncode 0 ++ encRecords rs ++ footerEncode {} =
            (encBytesLE 4 53 ++ encBytesLE 4 1) ++
              (encBytesLE 4 0 ++ (encRecords rs ++ footerEncode {})) := by
          simp [blobFileHeaderEncode, List.append_assoc]
        rw [e, dropLenAppend _ _ 8 (by simp [length_encBytesLE]),
          decBytesLE_encBytesLE]
        norm_num
      rw [hflags]
      rw [if_neg (by omega)]
      rw [hdata]
      simp only [List.length_append, length_blobFileHeaderEncode,
        length_footerEncode]
      omega
    · refine ⟨footerEncode {}, ?_⟩
      show (buildFile cfg noFail rs).2.1.data.drop kBlobHeaderSize =
        encRecords rs ++ footerEncode {}
      rw [hdata, List.append_assoc]
      exact dropLenAppend _ _ _ (length_blobFileHeaderEncode _)

theorem length_encRecords (rs : List BlobRecord) :
    (encRecords rs).length = (rs.map (fun r => (encodeFull r).length)).sum := by
  induction rs with
  | nil => rfl
  | cons r rest ih =>
    rw [encRecords_cons, List.length_append, ih]
    simp

theorem encodeFull_length_le (r : BlobRecord) (rs : List BlobRecord)
    (h : r ∈ rs) : (encodeFull r).length ≤ (encRecords rs).length := by
  induction rs with
  | nil => cases h
  | cons x rest ih =>
    rw [encRecords_cons, List.length_append]
    rcases List.mem_cons.mp h with h1 | h2
    · rw [h1]
      omega
    · have := ih h2
      omega

theorem handlesFor_chain (off : Nat) (rs : List BlobRecord) :
    (handlesFor off rs).Chain'
      (fun a b => a.offset < b.offset ∧ a.offset + a.size ≤ b.offset) := by
  induction rs generalizing off with
  | nil => simp [handlesFor]
  | cons r rest ih =>
    cases rest with
    | nil => simp [handlesFor]
    | cons r2 rest2 =>
      rw [handlesFor, handlesFor]
      rw [List.chain'_cons]
      refine ⟨⟨?_, ?_⟩, ?_⟩
      · show off < off + (encodeFull r).length
        have : 0 < (encodeFull r).length := by
          rw [length_encodeFull]
          simp [kRecordHeaderSize]
        omega
      · show off + (encodeFull r).length ≤ off + (encodeFull r).length
        omega
      · have := ih (off + (encodeFull r).length)
        rw [handlesFor] at this
        exact this

/-- C1 (amended): for records with non-decreasing keys written through one
Builder (with or without dictionary training) and finished, iterating
from `SeekToFirst` yields exactly the original (key, value) sequence with
the records' contiguous handles; in the no-dictionary configuration the
handles returned by `Add` are exactly those handles, and the handle
sequence is monotonically increasing and non-overlapping.  (The original
claim also asserted that `Add` returns these handles under dictionary
training; buffered `Add` calls return no handle — see the
counterexample.) -/
theorem C1_roundtrip (cfg : TitanCFOptions) (rs : List BlobRecord)
    (hsorted : rs.Chain' (fun a b => cfg.comparator a.key b.key ≤ 0))
    (hbound : kBlobHeaderSize + (encRecords rs).length < w32) :
    (buildFile cfg noFail rs).2.2.2 = .ok ∧
    iterCollect (rs.length + 1)
        (seekToFirst (mkIterator (buildFile cfg noFail rs).2.1.data)) =
      iterExpect kBlobHeaderSize rs ∧
    (cfg.dictionaryEnabled = false →
      (buildFile cfg noFail rs).2.2.1 =
        (handlesFor kBlobHeaderSize rs).map some) ∧
    (handlesFor kBlobHeaderSize rs).Chain'
      (fun a b => a.offset < b.offset ∧ a.offset + a.size ≤ b.offset) := by
  obtain ⟨l1, l2, l3, l4, l4s, l5⟩ := buildFile_layout cfg rs
  have hb64 : kBlobHeaderSize + (encRecords rs).length < w64 := by
    have : w32 < w64 := by norm_num [w32, w64]
    omega
  obtain ⟨hEnd, post, hdropped⟩ := mkIterator_built cfg rs hb64
  have hlen : ∀ r ∈ rs, (recordEncodeTo r).length < w32 := by
    intro r hr
    have h1 := encodeFull_length_le r rs hr
    have h2 := length_encodeFull r
    simp only [kRecordHeaderSize] at h2
    omega
  obtain ⟨run1, run2, run3⟩ := iterRun rs
    (seekToFirst (mkIterator (buildFile cfg noFail rs).2.1.data)) post
    hdropped (by exact hEnd) hlen
  refine ⟨l1, run1, ?_, handlesFor_chain kBlobHeaderSize rs⟩
  intro hdict
  rw [hdict] at l5
  simp only [Bool.false_eq_true, if_false] at l5
  exact l5.2

/-- C1 counterexample: with dictionary training configured, one record
with key `[1]` is added (trivially non-decreasing), `Finish` succeeds and
iteration returns the record — but the `Add` call returned no
`BlobHandle` at all (the buffered branch leaves the out-parameter
untouched and the replay handle of `FlushSampleRecords` is discarded), so
the claim that the handles returned by `Add` cover the records is false
under dictionary training. -/
theorem C1_counterexample :
    (buildFile c1Cfg noFail [{ key := [1], value := [7] }]).2.2.2 = .ok ∧
    (buildFile c1Cfg noFail [{ key := [1], value := [7] }]).2.2.1 = [none] ∧
    (iterCollect 2 (seekToFirst (mkIterator
        (buildFile c1Cfg noFail [{ key := [1], value := [7] }]).2.1.data))).map
      (fun t => (t.1, t.2.1)) = [([1], [7])] := by
  refine ⟨rfl, rfl, ?_⟩
  decide

/-- Witness for C1: a concrete two-record no-dictionary build satisfying
the hypotheses. -/
theorem C1_roundtrip_witness :
    (([{ key := [1], value := [7] }, { key := [2], value := [8, 9] }] :
        List BlobRecord).Chain'
      (fun a b => lexCmp a.key b.key ≤ 0)) ∧
    (kBlobHeaderSize + (encRecords [{ key := [1], value := [7] },
      { key := [2], value := [8, 9] }]).length < w32) ∧
    (iterCollect 3 (seekToFirst (mkIterator
        (buildFile
          { dictionaryEnabled := false, zstdMaxTrainBytes := 0,
            maxDictBytes := 0, comparator := lexCmp } noFail
          [{ key := [1], value := [7] },
           { key := [2], value := [8, 9] }]).2.1.data)) =
      iterExpect kBlobHeaderSize
        [{ key := [1], value := [7] }, { key := [2], value := [8, 9] }]) := by
  have hch : ([{ key := [1], value := [7] },
      { key := [2], value := [8, 9] }] : List BlobRecord).Chain'
      (fun a b => lexCmp a.key b.key ≤ 0) :=
    List.chain'_cons.mpr ⟨by decide, List.chain'_singleton _⟩
  refine ⟨hch, by decide, ?_⟩
  exact (C1_roundtrip
    { dictionaryEnabled := false, zstdMaxTrainBytes := 0,
      maxDictBytes := 0, comparator := lexCmp }
    [{ key := [1], value := [7] }, { key := [2], value := [8, 9] }]
    hch (by decide)).2.1

/-- C3: in the `Unbuffered` state with no prior error and with both of the
two file appends succeeding, `Add` encodes the record, appends header and
body to the file, and returns a `BlobHandle` whose offset is the file
size immediately before the write and whose size is the total encoded
length (header plus body). -/
theorem C3_add_unbuffered (cfg : TitanCFOptions) (failAt : Nat → Bool)
    (b : BlobFileBuilder) (fs : FileState) (r : BlobRecord)
    (hst : b.builderState = .kUnbuffered) (hok : b.status = .ok)
    (h0 : failAt fs.nAppends = false)
    (h1 : failAt (fs.nAppends + 1) = false) :
    (addRecord cfg failAt b fs r).2.2 =
      some { offset := fs.data.length,
             size := (encodeRecordOut r).header.length +
               (encodeRecordOut r).body.length } ∧
    (addRecord cfg failAt b fs r).2.1.data =
      fs.data ++ ((encodeRecordOut r).header ++ (encodeRecordOut r).body) ∧
    (addRecord cfg failAt b fs r).1.status = .ok := by
  obtain ⟨bst, st, srs, ssl, sk, lk, ne, lds, cd, af⟩ := b
  simp only at hst hok
  subst hst
  subst hok
  unfold addRecord writeEncoderData
  simp only [Status.isOk, if_true, fileAppend, h0, Bool.false_eq_true,
    if_false]
  dsimp only [EncoderOut.size]
  simp only [List.length_append, h1, Bool.false_eq_true, if_false]
  refine ⟨?_, ?_, ?_⟩ <;> simp [List.append_assoc]

/-- Witness for C3: the builder freshly constructed with no dictionary,
adding one concrete record under the all-success schedule. -/
theorem C3_add_unbuffered_witness :
    ((mkBlobFileBuilder plainCfg noFail).1.builderState = .kUnbuffered) ∧
    ((addRecord plainCfg noFail (mkBlobFileBuilder plainCfg noFail).1 (mkBlobFileBuilder plainCfg noFail).2 { key := [3], value := [9, 9] }).2.2 = some { offset := 12, size := (encodeRecordOut { key := [3], value := [9, 9] }).header.length + (encodeRecordOut { key := [3], value := [9, 9] }).body.length }) := by
  refine ⟨by decide, ?_⟩
  exact (C3_add_unbuffered plainCfg noFail _ _ { key := [3], value := [9, 9] }
    (by decide) (by decide) (by decide) (by decide)).1

/-- C10: when a file append fails during an unbuffered record write, the
builder's accounting is not rolled back.  The returned handle (offset and
size) and the live-data byte count are set unconditionally before the
first append is attempted, and `num_entries_` is incremented exactly when
the header append succeeds, even if the body append then fails. -/
theorem C10_writeEncoderData_accounting (failAt : Nat → Bool)
    (b : BlobFileBuilder) (fs : FileState) (r : BlobRecord) :
    (failAt fs.nAppends = true →
      writeEncoderData failAt b fs (encodeRecordOut r) =
        ({ b with liveDataSize := b.liveDataSize + (encodeRecordOut r).size,
                  status := .ioError fs.nAppends },
         { fs with nAppends := fs.nAppends + 1 },
         { offset := fs.data.length, size := (encodeRecordOut r).size })) ∧
    (failAt fs.nAppends = false → failAt (fs.nAppends + 1) = true →
      writeEncoderData failAt b fs (encodeRecordOut r) =
        ({ b with liveDataSize := b.liveDataSize + (encodeRecordOut r).size,
                  status := .ioError (fs.nAppends + 1),
                  numEntries := b.numEntries + 1 },
         { data := fs.data ++ (encodeRecordOut r).header,
           nAppends := fs.nAppends + 2 },
         { offset := fs.data.length, size := (encodeRecordOut r).size })) := by
  obtain ⟨bst, st, srs, ssl, sk, lk, ne, lds, cd, af⟩ := b
  constructor
  · intro hf
    unfold writeEncoderData
    simp [fileAppend, hf, Status.isOk]
  · intro hf0 hf1
    unfold writeEncoderData
    simp [fileAppend, hf0, hf1, Status.isOk]

/-- Witness for C10: both failure scenarios at a concrete builder, file
state and record: header-append failure leaves the entry count unchanged,
body-append failure still increments it while latching the error. -/
theorem C10_writeEncoderData_accounting_witness :
    (env5 5 = true) ∧ (env6 5 = false) ∧ (env6 6 = true) ∧
    ((writeEncoderData env5 w10Builder w10File (encodeRecordOut { key := [4], value := [5] })).1.numEntries = 2) ∧
    ((writeEncoderData env6 w10Builder w10File (encodeRecordOut { key := [4], value := [5] })).1.numEntries = 3) ∧
    ((writeEncoderData env6 w10Builder w10File (encodeRecordOut { key := [4], value := [5] })).1.status = .ioError 6) := by
  have h1 := (C10_writeEncoderData_accounting env5 w10Builder w10File { key := [4], value := [5] }).1 (by decide)
  have h2 := (C10_writeEncoderData_accounting env6 w10Builder w10File { key := [4], value := [5] }).2 (by decide) (by decide)
  refine ⟨rfl, rfl, rfl, ?_, ?_, ?_⟩
  · rw [h1]; rfl
  · rw [h2]; rfl
  · rw [h2]; rfl

/-- C5 (code bug): evaluating `Add` at the failing input.  In the
`Buffered` state the key-range checks are skipped entirely (`Add` returns
from the buffered branch before reaching them, although the source's own
comment says the checks run for both states): after adding key `[2]` and
then the smaller key `[1]` to a buffered builder, no assertion fires.
The same two keys through an unbuffered builder do trip the assertion,
showing the check exists and fires in the other state. -/
theorem C5_buffered_skips_key_checks :
    (addAll dictCfg0 noFail [{ key := [2], value := [] }, { key := [1], value := [] }] (mkBlobFileBuilder dictCfg0 noFail).1 (mkBlobFileBuilder dictCfg0 noFail).2).1.assertFailed = false ∧
    (addAll dictCfg0 noFail [{ key := [2], value := [] }, { key := [1], value := [] }] (mkBlobFileBuilder dictCfg0 noFail).1 (mkBlobFileBuilder dictCfg0 noFail).2).1.builderState = .kBuffered ∧
    (addAll plainCfg noFail [{ key := [2], value := [] }, { key := [1], value := [] }] (mkBlobFileBuilder plainCfg noFail).1 (mkBlobFileBuilder plainCfg noFail).2).1.assertFailed = true := by
  refine ⟨?_, ?_, ?_⟩ <;> decide

/-- C2 (code bug): evaluating the builder at the failing input.  With a
dictionary configured and one buffered record, append index 3 — the
dictionary-block write inside `Finish` — fails, yet `Finish` returns ok:
the meta-index block write that follows is not guarded by an `ok()` check
and its success overwrites the latched error (`WriteRawBlock` and the
footer append in the source set `status_` unconditionally).  The file is
missing the dictionary block: it is shorter than the fault-free build,
although seven append calls were attempted. -/
theorem C2_error_overwritten :
    env3 3 = true ∧
    (buildFile dictCfg0 env3 [{ key := [1], value := [7] }]).2.2.2 = .ok ∧
    (buildFile dictCfg0 env3 [{ key := [1], value := [7] }]).2.1.nAppends = 7 ∧
    (buildFile dictCfg0 env3 [{ key := [1], value := [7] }]).2.1.data.length <
      (buildFile dictCfg0 noFail [{ key := [1], value := [7] }]).2.1.data.length := by
  refine ⟨rfl, rfl, rfl, ?_⟩
  decide

/-- C6 counterexample: the cap computation is NOT applied when the
training-byte budget is zero/unset — the source's conditional takes the
plain `record_str.size()` branch.  At budget 0 and sample length
`2^63 + 1` the code's contributed length differs from the claim's cap
expression, refuting "this cap computation is applied even when the
training-byte budget is zero/unset". -/
theorem C6_counterexample :
    copyLenFor 0 (2 ^ 63 + 1) ≠ capExpr 0 (2 ^ 63 + 1) := by
  decide

/-- C6 (amended): the per-sample contribution during dictionary-corpus
construction equals the sample's full length when the budget is
zero/unset (no cap applied); when the budget is positive it is the
claim's cap expression, and the unsigned subtraction underflows whenever
the budget is smaller than the sample, so the `min` selects the full
sample length; when the sample fits the budget the "remaining budget" is
the true difference `budget − length`. -/
theorem C6_cap_behavior (ztb len : Nat) (hz : ztb < w64) :
    (copyLenFor 0 len = len) ∧
    (0 < ztb → copyLenFor ztb len = capExpr ztb len) ∧
    (0 < ztb → ztb < len → len ≤ 2 ^ 63 → copyLenFor ztb len = len) ∧
    (0 < ztb → len ≤ ztb → copyLenFor ztb len = min (ztb - len) len) := by
  refine ⟨by simp [copyLenFor], ?_, ?_, ?_⟩
  · intro h
    simp [copyLenFor, capExpr, h]
  · intro h hlt hle
    have hlw : len < w64 := by
      simp only [w64] at *
      omega
    have h1 : len % w64 = len := Nat.mod_eq_of_lt hlw
    have h2 : (ztb + (w64 - len)) % w64 = ztb + (w64 - len) :=
      Nat.mod_eq_of_lt (by simp only [w64] at *; omega)
    simp only [copyLenFor, if_pos h, h1, h2]
    simp only [w64] at *
    omega
  · intro h hle
    have hlw : len < w64 := by
      simp only [w64] at *
      omega
    have h1 : len % w64 = len := Nat.mod_eq_of_lt hlw
    have h2 : (ztb + (w64 - len)) % w64 = ztb - len := by
      have e : ztb + (w64 - len) = w64 + (ztb - len) := by
        simp only [w64] at *
        omega
      rw [e, Nat.add_mod_left]
      exact Nat.mod_eq_of_lt (by simp only [w64] at *; omega)
    simp only [copyLenFor, if_pos h, h1, h2]

/-- Witness for C6 (amended): concrete budget and length values for each
conjunct. -/
theorem C6_cap_behavior_witness :
    ((3 : Nat) < w64) ∧
    (copyLenFor 0 25 = 25) ∧
    (copyLenFor 3 25 = 25) ∧
    (copyLenFor 30 25 = min (30 - 25) 25) := by
  have h := C6_cap_behavior 3 25 (by decide)
  have h2 := C6_cap_behavior 30 25 (by decide)
  exact ⟨by decide, (C6_cap_behavior 3 25 (by decide)).1,
    h.2.2.1 (by decide) (by decide) (by decide),
    h2.2.2.2 (by decide) (by decide)⟩

/-- C9: at every point in the builder's life (after any sequence of `Add`
calls from a fresh builder, under the all-success schedule), the file
contains exactly the first `NumEntries()` records — buffered samples are
not counted — the counted and buffered records together account for every
added record, and after `Finish` every record is counted. -/
theorem C9_numEntries (cfg : TitanCFOptions) (rs : List BlobRecord) :
    (addAll cfg noFail rs (mkBlobFileBuilder cfg noFail).1 (mkBlobFileBuilder cfg noFail).2).2.1.data =
      blobFileHeaderEncode
          (if cfg.dictionaryEnabled then kHasUncompressionDictionary else 0) ++
        encRecords (rs.take (addAll cfg noFail rs (mkBlobFileBuilder cfg noFail).1 (mkBlobFileBuilder cfg noFail).2).1.numEntries) ∧
    (addAll cfg noFail rs (mkBlobFileBuilder cfg noFail).1 (mkBlobFileBuilder cfg noFail).2).1.numEntries +
      (addAll cfg noFail rs (mkBlobFileBuilder cfg noFail).1 (mkBlobFileBuilder cfg noFail).2).1.sampleRecords.length = rs.length ∧
    (buildFile cfg noFail rs).1.numEntries = rs.length := by
  refine ⟨?_, ?_, (buildFile_layout cfg rs).2.2.1⟩ <;>
  · rw [mkBlobFileBuilder_noFail cfg]
    cases hdict : cfg.dictionaryEnabled with
    | false =>
      simp only [Bool.false_eq_true, if_false]
      obtain ⟨g1, g2, g3, g4, g5, g6, g7, g8, g9⟩ :=
        addAll_unbuffered_noFail cfg rs
          { builderState := .kUnbuffered, status := .ok,
            sampleRecords := [], sampleStrLen := 0,
            smallestKey := [], largestKey := [],
            numEntries := 0, liveDataSize := 0,
            compressionDict := none, assertFailed := false }
          { data := blobFileHeaderEncode 0, nAppends := 1 } rfl rfl
      simp only [g3, g4, g7]
      simp [List.take_length]
    | true =>
      simp only [if_true]
      have hth : ¬(0 < cfg.zstdMaxTrainBytes ∧ cfg.zstdMaxTrainBytes ≤
          (0 : Nat)) := by
        rintro ⟨a, b2⟩
        omega
      have H := addAll_buffered_noFail cfg rs
        { builderState := .kBuffered, status := .ok,
          sampleRecords := [], sampleStrLen := 0,
          smallestKey := [], largestKey := [],
          numEntries := 0, liveDataSize := 0,
          compressionDict := none, assertFailed := false }
        { data := blobFileHeaderEncode kHasUncompressionDictionary,
          nAppends := 1 } rfl rfl hth
      dsimp only at H
      by_cases hcross : 0 < cfg.zstdMaxTrainBytes ∧
          cfg.zstdMaxTrainBytes ≤ 0 + recLensSum rs
      · rw [if_pos hcross] at H
        obtain ⟨H1, H2, H3, H4, H5, H6, H7⟩ := H
        simp only [H3, H5, H7]
        simp [List.take_length, encSlices_nil]
      · rw [if_neg hcross] at H
        obtain ⟨H1, H2, H3, H4, H5, H6, H7⟩ := H
        simp only [H3, H5, H7]
        simp [encRecords]

/-- C4: for a builder that starts `Buffered` (dictionary configured), the
transition to `Unbuffered` happens during an `Add` exactly when
the accumulated sample bytes reach the positive training threshold, and
otherwise at `Finish`; in both cases the finished file contains every
record exactly once in the original order, each counted once, and the
sample buffer is cleared. -/
theorem C4_buffer_transition (cfg : TitanCFOptions) (rs : List BlobRecord)
    (hdict : cfg.dictionaryEnabled = true) :
    ((addAll cfg noFail rs (mkBlobFileBuilder cfg noFail).1 (mkBlobFileBuilder cfg noFail).2).1.builderState = .kUnbuffered ↔
      (0 < cfg.zstdMaxTrainBytes ∧
        cfg.zstdMaxTrainBytes ≤ recLensSum rs)) ∧
    (buildFile cfg noFail rs).1.builderState = .kUnbuffered ∧
    (buildFile cfg noFail rs).1.sampleRecords = [] ∧
    (buildFile cfg noFail rs).1.sampleStrLen = 0 ∧
    (buildFile cfg noFail rs).1.numEntries = rs.length ∧
    (∃ post, (buildFile cfg noFail rs).2.1.data =
      blobFileHeaderEncode kHasUncompressionDictionary ++
        encRecords rs ++ post) := by
  obtain ⟨l1, l2, l3, l4, l4s, l5⟩ := buildFile_layout cfg rs
  rw [hdict] at l5
  simp only [if_true] at l5
  obtain ⟨d, hd, hdlen, hdata⟩ := l5
  refine ⟨?_, l2, l4, l4s, l3, ⟨_, hdata⟩⟩
  rw [mkBlobFileBuilder_noFail cfg]
  rw [hdict]
  simp only [if_true]
  have hth : ¬(0 < cfg.zstdMaxTrainBytes ∧ cfg.zstdMaxTrainBytes ≤
      (0 : Nat)) := by
    rintro ⟨a, b2⟩
    omega
  have H := addAll_buffered_noFail cfg rs
    { builderState := .kBuffered, status := .ok,
      sampleRecords := [], sampleStrLen := 0,
      smallestKey := [], largestKey := [],
      numEntries := 0, liveDataSize := 0,
      compressionDict := none, assertFailed := false }
    { data := blobFileHeaderEncode kHasUncompressionDictionary,
      nAppends := 1 } rfl rfl hth
  dsimp only at H
  by_cases hcross : 0 < cfg.zstdMaxTrainBytes ∧
      cfg.zstdMaxTrainBytes ≤ 0 + recLensSum rs
  · rw [if_pos hcross] at H
    constructor
    · intro _
      exact ⟨hcross.1, by have := hcross.2; omega⟩
    · intro _
      exact H.1
  · rw [if_neg hcross] at H
    constructor
    · intro hstate
      rw [H.1] at hstate
      cases hstate
    · intro hc
      exact absurd ⟨hc.1, by have := hc.2; omega⟩ hcross

/-- Witness for C4: a concrete dictionary-enabled configuration with a
threshold crossed mid-stream by two records. -/
theorem C4_buffer_transition_witness :
    dictCfg0.dictionaryEnabled = true ∧
    (buildFile dictCfg0 noFail [{ key := [1], value := [7] }]).1.sampleRecords = [] ∧
    (buildFile dictCfg0 noFail [{ key := [1], value := [7] }]).1.numEntries = 1 := by
  have h := C4_buffer_transition dictCfg0 [{ key := [1], value := [7] }] rfl
  exact ⟨rfl, h.2.2.1, h.2.2.2.2.1⟩

theorem footer_decodes (f : BlobFileFooter)
    (h1 : f.metaIndexHandle.offset < w64)
    (h2 : f.metaIndexHandle.size < w64)
    (h3 : f.uncompressionDictHandle.offset < w64)
    (h4 : f.uncompressionDictHandle.size < w64) :
    decBytesLE 8 (footerEncode f) = f.metaIndexHandle.offset ∧
    decBytesLE 8 ((footerEncode f).drop 8) = f.metaIndexHandle.size ∧
    decBytesLE 8 ((footerEncode f).drop 16) = f.uncompressionDictHandle.offset ∧
    decBytesLE 8 ((footerEncode f).drop 24) = f.uncompressionDictHandle.size := by
  have hw : w64 = 256 ^ 8 := by norm_num [w64]
  have hd8 : (footerEncode f).drop 8 =
      encBytesLE 8 f.metaIndexHandle.size ++
        (encBytesLE 8 f.uncompressionDictHandle.offset ++
          encBytesLE 8 f.uncompressionDictHandle.size) := by
    rw [footerEncode]
    rw [List.append_assoc]
    exact dropLenAppend _ _ 8 (length_encBytesLE 8 _)
  have hd16 : (footerEncode f).drop 16 =
      encBytesLE 8 f.uncompressionDictHandle.offset ++
        encBytesLE 8 f.uncompressionDictHandle.size := by
    rw [footerEncode_split]
    exact dropLenAppend _ _ 16 (by simp [length_encBytesLE])
  have hd24 : (footerEncode f).drop 24 =
      encBytesLE 8 f.uncompressionDictHandle.size ++ [] := by
    have e : (24 : Nat) = 16 + 8 := by norm_num
    rw [e, ← List.drop_drop, hd16]
    rw [dropLenAppend _ _ 8 (length_encBytesLE 8 _)]
    simp
  have hsplit0 : footerEncode f =
      encBytesLE 8 f.metaIndexHandle.offset ++
        (encBytesLE 8 f.metaIndexHandle.size ++
          (encBytesLE 8 f.uncompressionDictHandle.offset ++
            encBytesLE 8 f.uncompressionDictHandle.size)) := by
    simp [footerEncode, List.append_assoc]
  refine ⟨?_, ?_, ?_, ?_⟩
  · rw [hsplit0, decBytesLE_encBytesLE]
    exact Nat.mod_eq_of_lt (hw ▸ h1)
  · rw [hd8, decBytesLE_encBytesLE]
    exact Nat.mod_eq_of_lt (hw ▸ h2)
  · rw [hd16, decBytesLE_encBytesLE]
    exact Nat.mod_eq_of_lt (hw ▸ h3)
  · rw [hd24, decBytesLE_encBytesLE]
    exact Nat.mod_eq_of_lt (hw ▸ h4)

theorem length_metaBlockAt (base : Nat) (d : List Nat) :
    (metaBlockAt base d).length = 16 := by
  simp [metaBlockAt, metaIndexFinish, dictHandleAt, length_encBytesLE]

/-- C7: after `Finish` with a dictionary configured, the header's
dictionary flag bit is set and the footer's two handles are non-zero,
pointing at the dictionary block and the meta-index block, both written
before the footer; with no dictionary configured the flag is clear and
both footer handles are zero. -/
theorem C7_dictionary_footer (cfg : TitanCFOptions) (rs : List BlobRecord)
    (hbound : kBlobHeaderSize + (encRecords rs).length < w32)
    (hmax : cfg.maxDictBytes < w32) :
    (cfg.dictionaryEnabled = true →
      readFlags (buildFile cfg noFail rs).2.1.data % 2 = 1 ∧
      (readFooter (buildFile cfg noFail rs).2.1.data).uncompressionDictHandle.offset ≠ 0 ∧
      (readFooter (buildFile cfg noFail rs).2.1.data).metaIndexHandle.offset ≠ 0 ∧
      ((buildFile cfg noFail rs).2.1.data.drop
          (readFooter (buildFile cfg noFail rs).2.1.data).uncompressionDictHandle.offset).take
          (readFooter (buildFile cfg noFail rs).2.1.data).uncompressionDictHandle.size =
        (buildFile cfg noFail rs).1.compressionDict.getD [] ∧
      ((buildFile cfg noFail rs).2.1.data.drop
          (readFooter (buildFile cfg noFail rs).2.1.data).metaIndexHandle.offset).take
          (readFooter (buildFile cfg noFail rs).2.1.data).metaIndexHandle.size =
        metaIndexFinish
          [(readFooter (buildFile cfg noFail rs).2.1.data).uncompressionDictHandle] ∧
      (readFooter (buildFile cfg noFail rs).2.1.data).metaIndexHandle.offset +
          (readFooter (buildFile cfg noFail rs).2.1.data).metaIndexHandle.size +
          kBlockTrailerSize + kFooterSize =
        (buildFile cfg noFail rs).2.1.data.length) ∧
    (cfg.dictionaryEnabled = false →
      readFlags (buildFile cfg noFail rs).2.1.data = 0 ∧
      readFooter (buildFile cfg noFail rs).2.1.data = {}) := by
  obtain ⟨l1, l2, l3, l4, l4s, l5⟩ := buildFile_layout cfg rs
  constructor
  · intro hdict
    rw [hdict] at l5
    simp only [if_true] at l5
    obtain ⟨d, hd, hdlen, hdata⟩ := l5
    have hsplitF : (buildFile cfg noFail rs).2.1.data =
        (blobFileHeaderEncode kHasUncompressionDictionary ++ encRecords rs ++
          (d ++ rawBlockTrailer d) ++
          (metaBlockAt (kBlobHeaderSize + (encRecords rs).length) d ++
            rawBlockTrailer
              (metaBlockAt (kBlobHeaderSize + (encRecords rs).length) d))) ++
        footerEncode (footerAt (kBlobHeaderSize + (encRecords rs).length) d) := by
      rw [hdata, dictTail]
      simp [List.append_assoc]
    have hfb : (buildFile cfg noFail rs).2.1.data.drop
        ((buildFile cfg noFail rs).2.1.data.length - kFooterSize) =
        footerEncode (footerAt (kBlobHeaderSize + (encRecords rs).length) d) := by
      rw [hsplitF, List.length_append, length_footerEncode,
        Nat.add_sub_cancel]
      exact dropLenAppend _ _ _ rfl
    have hb1 : (footerAt (kBlobHeaderSize + (encRecords rs).length) d).metaIndexHandle.offset < w64 := by
      dsimp only [footerAt]
      simp only [w32, w64, kBlockTrailerSize, kBlobHeaderSize] at *
      omega
    have hb2 : (footerAt (kBlobHeaderSize + (encRecords rs).length) d).metaIndexHandle.size < w64 := by
      dsimp only [footerAt]
      rw [length_metaBlockAt]
      norm_num [w64]
    have hb3 : (footerAt (kBlobHeaderSize + (encRecords rs).length) d).uncompressionDictHandle.offset < w64 := by
      dsimp only [footerAt, dictHandleAt]
      simp only [w32, w64, kBlobHeaderSize] at *
      omega
    have hb4 : (footerAt (kBlobHeaderSize + (encRecords rs).length) d).uncompressionDictHandle.size < w64 := by
      dsimp only [footerAt, dictHandleAt]
      simp only [w32, w64] at *
      omega
    obtain ⟨f1, f2, f3, f4⟩ := footer_decodes
      (footerAt (kBlobHeaderSize + (encRecords rs).length) d) hb1 hb2 hb3 hb4
    have hfoot : readFooter (buildFile cfg noFail rs).2.1.data =
        footerAt (kBlobHeaderSize + (encRecords rs).length) d := by
      unfold readFooter
      rw [hfb, f1, f2, f3, f4]
    have hflags : readFlags (buildFile cfg noFail rs).2.1.data = 1 := by
      unfold readFlags
      rw [hdata]
      have e : blobFileHeaderEncode kHasUncompressionDictionary ++
          encRecords rs ++
          dictTail d (kBlobHeaderSize + (encRecords rs).length) =
          (encBytesLE 4 53 ++ encBytesLE 4 1) ++
            (encBytesLE 4 kHasUncompressionDictionary ++
              (encRecords rs ++
                dictTail d (kBlobHeaderSize + (encRecords rs).length))) := by
        simp [blobFileHeaderEncode, List.append_assoc]
      rw [e, dropLenAppend _ _ 8 (by simp [length_encBytesLE]),
        decBytesLE_encBytesLE]
      norm_num [kHasUncompressionDictionary]
    refine ⟨by rw [hflags], ?_, ?_, ?_, ?_, ?_⟩
    · rw [hfoot]
      dsimp only [footerAt, dictHandleAt]
      simp [kBlobHeaderSize]
    · rw [hfoot]
      dsimp only [footerAt]
      simp [kBlobHeaderSize]
    · rw [hfoot, hd]
      dsimp only [footerAt, dictHandleAt, Option.getD_some]
      have hpre : (buildFile cfg noFail rs).2.1.data =
          (blobFileHeaderEncode kHasUncompressionDictionary ++ encRecords rs) ++
          (d ++ (rawBlockTrailer d ++
            (metaBlockAt (kBlobHeaderSize + (encRecords rs).length) d ++
              (rawBlockTrailer
                (metaBlockAt (kBlobHeaderSize + (encRecords rs).length) d) ++
              footerEncode
                (footerAt (kBlobHeaderSize + (encRecords rs).length) d))))) := by
        rw [hdata, dictTail]
        simp [List.append_assoc]
      rw [hpre, dropLenAppend _ _ _ (by
        simp [List.length_append, length_blobFileHeaderEncode]
        try omega)]
      exact takeLenAppend _ _ _ rfl
    · rw [hfoot]
      dsimp only [footerAt, dictHandleAt]
      have hpre2 : (buildFile cfg noFail rs).2.1.data =
          (blobFileHeaderEncode kHasUncompressionDictionary ++ encRecords rs ++
            (d ++ rawBlockTrailer d)) ++
          (metaBlockAt (kBlobHeaderSize + (encRecords rs).length) d ++
            (rawBlockTrailer
              (metaBlockAt (kBlobHeaderSize + (encRecords rs).length) d) ++
            footerEncode
              (footerAt (kBlobHeaderSize + (encRecords rs).length) d))) := by
        rw [hdata, dictTail]
        simp [List.append_assoc]
      rw [hpre2, dropLenAppend _ _ _ (by
        simp [List.length_append, length_blobFileHeaderEncode,
          length_rawBlockTrailer, kBlockTrailerSize, kBlobHeaderSize]
        try omega)]
      rw [takeLenAppend
        (metaBlockAt (kBlobHeaderSize + (encRecords rs).length) d) _ _ rfl]
      rfl
    · rw [hfoot]
      dsimp only [footerAt]
      rw [length_metaBlockAt, hsplitF]
      simp only [List.length_append, length_footerEncode,
        length_blobFileHeaderEncode, length_rawBlockTrailer,
        length_metaBlockAt]
      simp only [kBlockTrailerSize, kFooterSize, kBlobHeaderSize]
      omega
  · intro hdict
    rw [hdict] at l5
    simp only [Bool.false_eq_true, if_false] at l5
    obtain ⟨hdata, hhandles⟩ := l5
    have hfb : (buildFile cfg noFail rs).2.1.data.drop
        ((buildFile cfg noFail rs).2.1.data.length - kFooterSize) =
        footerEncode {} := by
      rw [hdata]
      rw [List.length_append, length_footerEncode, Nat.add_sub_cancel]
      rw [List.append_assoc]
      rw [← List.append_assoc]
      exact dropLenAppend _ _ _ rfl
    obtain ⟨f1, f2, f3, f4⟩ := footer_decodes {}
      (by norm_num [w64]) (by norm_num [w64]) (by norm_num [w64])
      (by norm_num [w64])
    constructor
    · unfold readFlags
      rw [hdata]
      have e : blobFileHeaderEncode 0 ++ encRecords rs ++ footerEncode {} =
          (encBytesLE 4 53 ++ encBytesLE 4 1) ++
            (encBytesLE 4 0 ++ (encRecords rs ++ footerEncode {})) := by
        simp [blobFileHeaderEncode, List.append_assoc]
      rw [e, dropLenAppend _ _ 8 (by simp [length_encBytesLE]),
        decBytesLE_encBytesLE]
      norm_num
    · unfold readFooter
      rw [hfb, f1, f2, f3, f4]

/-- Witness for C7: a concrete one-record build in each configuration. -/
theorem C7_dictionary_footer_witness :
    (kBlobHeaderSize +
      (encRecords [{ key := [1], value := [7] }]).length < w32) ∧
    (dictCfg0.maxDictBytes < w32) ∧
    (readFlags (buildFile dictCfg0 noFail
      [{ key := [1], value := [7] }]).2.1.data % 2 = 1) ∧
    (readFooter (buildFile dictCfg0 noFail
      [{ key := [1], value := [7] }]).2.1.data).uncompressionDictHandle.offset ≠ 0 ∧
    (readFlags (buildFile plainCfg noFail
      [{ key := [1], value := [7] }]).2.1.data = 0) ∧
    (readFooter (buildFile plainCfg noFail
      [{ key := [1], value := [7] }]).2.1.data = {}) := by
  have h1 := C7_dictionary_footer dictCfg0 [{ key := [1], value := [7] }]
    (by decide) (by decide)
  have h2 := C7_dictionary_footer plainCfg [{ key := [1], value := [7] }]
    (by decide) (by decide)
  obtain ⟨ha, hb, _⟩ := h1.1 rfl
  obtain ⟨hc, hd2⟩ := h2.2 rfl
  exact ⟨by decide, by decide, ha, hb, hc, hd2⟩

theorem encRecords_append (a b : List BlobRecord) :
    encRecords (a ++ b) = encRecords a ++ encRecords b := by
  simp [encRecords]

theorem startOf_zero (rs : List BlobRecord) : startOf rs 0 = kBlobHeaderSize := by
  simp [startOf]

theorem startOf_eq_length (rs : List BlobRecord) (i : Nat) :
    startOf rs i = kBlobHeaderSize + (encRecords (rs.take i)).length := by
  rw [length_encRecords]
  simp [startOf]

theorem startOf_succ (rs : List BlobRecord) (i : Nat) (hi : i < rs.length) :
    startOf rs (i + 1) = startOf rs i + (encodeFull rs[i]).length := by
  simp only [startOf, List.map_take]
  rw [List.sum_take_succ _ i (by simpa using hi)]
  simp [Nat.add_assoc]

theorem startOf_le_succ (rs : List BlobRecord) (i : Nat) :
    startOf rs i ≤ startOf rs (i + 1) := by
  by_cases h : i < rs.length
  · rw [startOf_succ rs i h]
    exact Nat.le_add_right _ _
  · simp only [startOf]
    rw [List.take_of_length_le (by omega), List.take_of_length_le (by omega)]

theorem startOf_mono (rs : List BlobRecord) (j i : Nat) (h : j ≤ i) :
    startOf rs j ≤ startOf rs i := by
  induction i with
  | zero =>
    have hj : j = 0 := Nat.le_zero.mp h
    rw [hj]
  | succ i ih =>
    rcases Nat.eq_or_lt_of_le h with heq | hlt
    · rw [heq]
    · exact Nat.le_trans (ih (Nat.lt_succ_iff.mp hlt)) (startOf_le_succ rs i)

theorem startOf_length (rs : List BlobRecord) :
    startOf rs rs.length = kBlobHeaderSize + (encRecords rs).length := by
  rw [startOf_eq_length, List.take_length]

theorem startOf_pos_length (r : BlobRecord) : 0 < (encodeFull r).length := by
  rw [length_encodeFull]
  simp [kRecordHeaderSize]

theorem startOf_lt_succ (rs : List BlobRecord) (i : Nat) (hi : i < rs.length) :
    startOf rs i < startOf rs (i + 1) := by
  rw [startOf_succ rs i hi]
  have := startOf_pos_length rs[i]
  omega

theorem startOf_lt_end (rs : List BlobRecord) (k : Nat) (h : k < rs.length) :
    startOf rs k < kBlobHeaderSize + (encRecords rs).length := by
  have h1 := startOf_lt_succ rs k h
  have h2 := startOf_mono rs (k + 1) rs.length h
  rw [startOf_length] at h2
  omega

theorem length_le_encRecords (rs : List BlobRecord) :
    rs.length ≤ (encRecords rs).length := by
  induction rs with
  | nil => simp [encRecords]
  | cons r rest ih =>
    rw [encRecords_cons, List.length_append]
    have := startOf_pos_length r
    simp only [List.length_cons]
    omega

theorem drop_startOf (bytes post : List Nat) (rs : List BlobRecord) (i : Nat)
    (hdrop : bytes.drop kBlobHeaderSize = encRecords rs ++ post) :
    bytes.drop (startOf rs i) = encRecords (rs.drop i) ++ post := by
  have e1 : encRecords rs = encRecords (rs.take i) ++ encRecords (rs.drop i) := by
    rw [← encRecords_append, List.take_append_drop]
  have e2 : (bytes.drop kBlobHeaderSize).drop (encRecords (rs.take i)).length =
      bytes.drop (startOf rs i) := by
    rw [List.drop_drop, startOf_eq_length, Nat.add_comm]
  rw [← e2, hdrop, e1, List.append_assoc, dropLenAppend _ _ _ rfl]

theorem drop_record (bytes post : List Nat) (rs : List BlobRecord) (j : Nat)
    (hj : j < rs.length)
    (hdrop : bytes.drop kBlobHeaderSize = encRecords rs ++ post) :
    bytes.drop (startOf rs j) =
      encodeFull rs[j] ++ (encRecords (rs.drop (j + 1)) ++ post) := by
  rw [drop_startOf bytes post rs j hdrop, List.drop_eq_getElem_cons hj,
    encRecords_cons, List.append_assoc]

theorem scanGo_from (bytes post : List Nat) (rs : List BlobRecord)
    (target i : Nat)
    (hdrop : bytes.drop kBlobHeaderSize = encRecords rs ++ post)
    (hlen : ∀ r ∈ rs, (recordEncodeTo r).length < w32)
    (hi : i < rs.length)
    (hlow : startOf rs i ≤ target ∨ i = 0)
    (hhigh : target < startOf rs (i + 1) ∨ i + 1 = rs.length) :
    ∀ fuel j, j ≤ i → i - j < fuel →
      scanGo bytes (kBlobHeaderSize + (encRecords rs).length) target fuel
        (startOf rs j) = startOf rs i := by
  intro fuel
  induction fuel with
  | zero =>
    intro j hji hfuel
    omega
  | succ fuel ih =>
    intro j hji hfuel
    have hjlt : j < rs.length := Nat.lt_of_le_of_lt hji hi
    have hrec := drop_record bytes post rs j hjlt hdrop
    have hbody : decBytesLE 4 ((bytes.drop (startOf rs j)).drop 4) =
        (recordEncodeTo rs[j]).length := by
      rw [hrec]
      exact parse_bodyLen _ _ (hlen _ (List.getElem_mem hjlt))
    have hrl : kRecordHeaderSize + decBytesLE 4 ((bytes.drop (startOf rs j)).drop 4) =
        (encodeFull rs[j]).length := by
      rw [hbody, length_encodeFull]
    rw [scanGo]
    simp only [hrl, ← startOf_succ rs j hjlt]
    rcases Nat.eq_or_lt_of_le hji with heq | hlt
    · subst heq
      rw [if_neg ?hc]
      case hc =>
        rcases hhigh with h1 | h2
        · intro hcon
          exact absurd h1 (Nat.not_lt.mpr hcon.1)
        · intro hcon
          rw [h2, startOf_length] at hcon
          exact absurd hcon.2 (Nat.lt_irrefl _)
    · have hlow2 : startOf rs i ≤ target := by
        rcases hlow with h | h
        · exact h
        · subst h
          exact absurd hlt (Nat.not_lt_zero j)
      have hc1 : startOf rs (j + 1) ≤ target :=
        Nat.le_trans (startOf_mono rs (j + 1) i hlt) hlow2
      have hc2 : startOf rs (j + 1) <
          kBlobHeaderSize + (encRecords rs).length :=
        startOf_lt_end rs (j + 1) (Nat.lt_of_le_of_lt hlt hi)
      rw [if_pos ⟨hc1, hc2⟩]
      exact ih (j + 1) hlt (by omega)

/-- C8: on a finished file holding the given records, positioning with
IterateForPrev at any target offset and then calling Next yields the
record with the greatest start offset at most the target (the first
record when the target precedes it; the last also when the target lies
past the last start): the iterator is valid and exposes that record's
key, value and contiguous handle. -/
theorem C8_iterateForPrev (cfg : TitanCFOptions) (rs : List BlobRecord)
    (target i : Nat)
    (hbound : kBlobHeaderSize + (encRecords rs).length < w64)
    (hlen : ∀ r ∈ rs, (recordEncodeTo r).length < w32)
    (hi : i < rs.length)
    (hlow : startOf rs i ≤ target ∨ i = 0)
    (hhigh : target < startOf rs (i + 1) ∨ i + 1 = rs.length) :
    (iterNext (iterateForPrev
        (mkIterator (buildFile cfg noFail rs).2.1.data) target)).valid = true ∧
    (iterNext (iterateForPrev
        (mkIterator (buildFile cfg noFail rs).2.1.data) target)).curKey =
      rs[i].key ∧
    (iterNext (iterateForPrev
        (mkIterator (buildFile cfg noFail rs).2.1.data) target)).curValue =
      rs[i].value ∧
    (iterNext (iterateForPrev
        (mkIterator (buildFile cfg noFail rs).2.1.data) target)).curHandle =
      { offset := startOf rs i, size := (encodeFull rs[i]).length } := by
  obtain ⟨hEnd, post, hpost⟩ := mkIterator_built cfg rs hbound
  have hcursor :
      (iterateForPrev (mkIterator (buildFile cfg noFail rs).2.1.data)
        target).cursor = startOf rs i := by
    show scanGo (mkIterator (buildFile cfg noFail rs).2.1.data).bytes
        (mkIterator (buildFile cfg noFail rs).2.1.data).dataEnd target
        (mkIterator (buildFile cfg noFail rs).2.1.data).dataEnd
        kBlobHeaderSize = startOf rs i
    rw [hEnd, ← startOf_zero rs]
    have hfuel : i - 0 < kBlobHeaderSize + (encRecords rs).length := by
      have h1 := length_le_encRecords rs
      simp only [kBlobHeaderSize]
      omega
    exact scanGo_from
      (mkIterator (buildFile cfg noFail rs).2.1.data).bytes post rs
      target i hpost hlen hi hlow hhigh _ 0 (Nat.zero_le i) hfuel
  have hdrop2 : (iterateForPrev (mkIterator (buildFile cfg noFail rs).2.1.data)
        target).bytes.drop
      (iterateForPrev (mkIterator (buildFile cfg noFail rs).2.1.data)
        target).cursor =
      encodeFull rs[i] ++ (encRecords (rs.drop (i + 1)) ++ post) := by
    rw [hcursor]
    exact drop_record _ post rs i hi hpost
  have hEnd2 : (iterateForPrev (mkIterator (buildFile cfg noFail rs).2.1.data)
        target).cursor + (encodeFull rs[i]).length ≤
      (iterateForPrev (mkIterator (buildFile cfg noFail rs).2.1.data)
        target).dataEnd := by
    rw [hcursor, ← startOf_succ rs i hi]
    show startOf rs (i + 1) ≤
      (mkIterator (buildFile cfg noFail rs).2.1.data).dataEnd
    rw [hEnd, ← startOf_length rs]
    exact startOf_mono rs (i + 1) rs.length hi
  have hstep := iterNext_record
    (iterateForPrev (mkIterator (buildFile cfg noFail rs).2.1.data) target)
    rs[i] (encRecords (rs.drop (i + 1)) ++ post) hdrop2 hEnd2
    (hlen _ (List.getElem_mem hi))
  rw [hstep]
  refine ⟨rfl, rfl, rfl, ?_⟩
  dsimp only
  rw [hcursor]

/-- Witness for C8: a two-record file; the target 40 lies strictly inside
the second record (which starts at byte 39), so Next after
IterateForPrev(40) yields the second record. -/
theorem C8_iterateForPrev_witness :
    (kBlobHeaderSize + (encRecords [{ key := [1], value := [2] },
        { key := [3], value := [4, 5] }]).length < w64) ∧
    startOf [{ key := [1], value := [2] },
        { key := [3], value := [4, 5] }] 1 = 39 ∧
    (iterNext (iterateForPrev
        (mkIterator (buildFile plainCfg noFail
          [{ key := [1], value := [2] },
           { key := [3], value := [4, 5] }]).2.1.data) 40)).valid = true ∧
    (iterNext (iterateForPrev
        (mkIterator (buildFile plainCfg noFail
          [{ key := [1], value := [2] },
           { key := [3], value := [4, 5] }]).2.1.data) 40)).curKey = [3] := by
  have h := C8_iterateForPrev plainCfg
    [{ key := [1], value := [2] }, { key := [3], value := [4, 5] }] 40 1
    (by decide) (by decide) (by decide) (Or.inl (by decide)) (Or.inr (by decide))
  exact ⟨by decide, by decide, h.1, h.2.1⟩

end Titan
